import Mathlib

/-!
Verification of the Diffie–Hellman demo repository.

This file gives a shallow embedding, in Lean 4, of the security-relevant
parts of the repository (`diffie_hellman_utils.py`, `state_objects.py`,
`crypto_utils.py`, `signed_fields.py`, `ca_server.py`, `alice_server.py`,
`bob_server.py`, `mitm.py`) and proves or refutes the stated properties.

Modelling conventions:
- Python `bytes` values are `List Nat` (each element intended `< 256`).
- Python's three-argument `pow(a, b, n)` is `powMod` (fuel-based binary
  exponentiation, proved equal to `a ^ b % n`).
- Python `while`/`for` loops that are not structurally recursive are
  modelled with an explicit fuel argument, instantiated at call sites with
  a bound that is provably at least the number of iterations the Python
  loop performs; exhausting the fuel maps to `none` (non-termination or
  the loop's own give-up path, as noted at each definition).
- `random.randint` / `random.randrange` / `secrets.token_bytes` draws and
  the RSA primitives of the external `cryptography` library are oracle
  inputs (explicit parameters); side conditions record the ranges the
  library guarantees for the draws.
- Python exceptions are modelled with `Option`/`Except`: `none`/`.error`
  marks a raised exception at the corresponding program point.
-/

set_option linter.unusedVariables false

/-! ### Modular exponentiation: Python's `pow(b, e, n)` -/

/-- Fuel-based binary modular exponentiation; with fuel `e + 1` this is
Python's `pow(b, e, n)` for `n > 0`. -/
def powModAux : Nat → Nat → Nat → Nat → Nat
  | 0, _, _, n => 1 % n
  | fuel + 1, b, e, n =>
    if e = 0 then 1 % n
    else
      let h := powModAux fuel b (e / 2) n
      let h2 := h * h % n
      if e % 2 = 1 then h2 * (b % n) % n else h2

/-- Python's `pow(b, e, n)` (three-argument modular power). -/
def powMod (b e n : Nat) : Nat := powModAux (e + 1) b e n

theorem powModAux_eq (fuel b e n : Nat) (he : e < fuel) :
    powModAux fuel b e n = b ^ e % n := by
  induction fuel generalizing e with
  | zero => omega
  | succ f ih =>
    unfold powModAux
    by_cases h0 : e = 0
    · simp [h0, Nat.pow_zero]
    · simp only [h0, if_false]
      have hdiv : e / 2 < f := by omega
      rw [ih (e / 2) hdiv]
      by_cases hpar : e % 2 = 1
      · simp only [hpar, if_true]
        conv_rhs => rw [show e = e / 2 + e / 2 + 1 by omega]
        rw [Nat.pow_succ, Nat.pow_add]
        conv_rhs => rw [Nat.mul_mod, Nat.mul_mod (b ^ (e / 2)) (b ^ (e / 2))]
      · simp only [hpar, if_false]
        conv_rhs => rw [show e = e / 2 + e / 2 by omega]
        conv_rhs => rw [Nat.pow_add, Nat.mul_mod]

theorem powMod_eq (b e n : Nat) : powMod b e n = b ^ e % n :=
  powModAux_eq (e + 1) b e n (Nat.lt_succ_self e)

/-! ### Bytes, big-endian integers, hex (from `crypto_utils.py` helpers) -/

/-- Python bytes: list of byte values. -/
abbrev Bytes := List Nat

/-- Fuel-based helper for `natToBEMin`; fuel `x` always suffices since the
argument at least halves each step. -/
def natToBEMinAux : Nat → Nat → Bytes
  | 0, _ => []
  | fuel + 1, x => if x = 0 then [] else natToBEMinAux fuel (x / 256) ++ [x % 256]

/-- Minimal big-endian representation of a natural number, empty for 0
(the helper behind Python's `x.to_bytes((x.bit_length()+7)//8, "big")`). -/
def natToBEMin (x : Nat) : Bytes := natToBEMinAux x x

/-- Fixed-width big-endian representation: Python's `x.to_bytes(k, "big")`,
meaningful when `x < 256 ^ k` (Python raises `OverflowError` otherwise;
call sites guard for that). -/
def natToBEFixed : Nat → Nat → Bytes
  | 0, _ => []
  | k + 1, x => natToBEFixed k (x / 256) ++ [x % 256]

/-- Python's `int.from_bytes(b, "big")`. -/
def beBytesToNat (b : Bytes) : Nat := b.foldl (fun acc d => acc * 256 + d) 0

/-- Python's `int.bit_length()`. -/
def bitLength (n : Nat) : Nat := if n = 0 then 0 else Nat.log2 n + 1

theorem natToBEFixed_length (k x : Nat) : (natToBEFixed k x).length = k := by
  induction k generalizing x with
  | zero => rfl
  | succ k ih => simp [natToBEFixed, ih]

theorem natToBEFixed_inj (k x y : Nat) (hx : x < 256 ^ k) (hy : y < 256 ^ k)
    (h : natToBEFixed k x = natToBEFixed k y) : x = y := by
  induction k generalizing x y with
  | zero =>
    simp [Nat.pow_zero] at hx hy; omega
  | succ k ih =>
    simp only [natToBEFixed] at h
    have hlast : x % 256 = y % 256 := by
      have := List.append_inj_right h (by simp [natToBEFixed_length])
      simpa using this
    have hinit : natToBEFixed k (x / 256) = natToBEFixed k (y / 256) :=
      List.append_inj_left h (by simp [natToBEFixed_length])
    have hdx : x / 256 < 256 ^ k := by
      rw [Nat.div_lt_iff_lt_mul (by norm_num)]
      calc x < 256 ^ (k + 1) := hx
        _ = 256 ^ k * 256 := by ring
    have hdy : y / 256 < 256 ^ k := by
      rw [Nat.div_lt_iff_lt_mul (by norm_num)]
      calc y < 256 ^ (k + 1) := hy
        _ = 256 ^ k * 256 := by ring
    have := ih (x / 256) (y / 256) hdx hdy hinit
    omega

theorem beBytesToNat_natToBEFixed (k x : Nat) (hx : x < 256 ^ k) :
    beBytesToNat (natToBEFixed k x) = x := by
  induction k generalizing x with
  | zero => simp [Nat.pow_zero] at hx; simpa [natToBEFixed, beBytesToNat] using hx.symm
  | succ k ih =>
    have hdx : x / 256 < 256 ^ k := by
      rw [Nat.div_lt_iff_lt_mul (by norm_num)]
      calc x < 256 ^ (k + 1) := hx
        _ = 256 ^ k * 256 := by ring
    simp only [natToBEFixed, beBytesToNat, List.foldl_append, List.foldl]
    have : List.foldl (fun acc d => acc * 256 + d) 0 (natToBEFixed k (x / 256)) = x / 256 :=
      ih (x / 256) hdx
    rw [this]
    omega

/-- Value of a single hex digit character, or `none`. -/
def hexDigitVal (c : Char) : Option Nat :=
  if '0' ≤ c ∧ c ≤ '9' then some (c.toNat - '0'.toNat)
  else if 'a' ≤ c ∧ c ≤ 'f' then some (c.toNat - 'a'.toNat + 10)
  else if 'A' ≤ c ∧ c ≤ 'F' then some (c.toNat - 'A'.toNat + 10)
  else none

/-- Lowercase hex digit for a value `< 16` (as produced by Python `bytes.hex()`). -/
def hexDigitChar (n : Nat) : Char :=
  if n < 10 then Char.ofNat ('0'.toNat + n) else Char.ofNat ('a'.toNat + (n - 10))

/-- Python's `bytes.hex()`. -/
def bytesToHex (b : Bytes) : String :=
  String.mk (b.flatMap fun x => [hexDigitChar (x / 16), hexDigitChar (x % 16)])

/-- Parsing loop of Python's `bytes.fromhex`: spaces may separate byte pairs,
each byte is exactly two adjacent hex digits. -/
def hexPairs : List Char → Option Bytes
  | [] => some []
  | c1 :: rest =>
    if c1 = ' ' then hexPairs rest
    else
      match rest with
      | c2 :: rest2 => do
        let h1 ← hexDigitVal c1
        let h2 ← hexDigitVal c2
        let t ← hexPairs rest2
        pure ((16 * h1 + h2) :: t)
      | [] => none

/-- Python's `bytes.fromhex(s)`; `none` models the raised `ValueError`. -/
def bytesFromHex (s : String) : Option Bytes := hexPairs s.data

/-! ### `diffie_hellman_utils.py` -/

/-- The `while d % 2 == 0` loop of `_is_probable_prime`: write `m = d * 2^r`
with `d` odd, returned as `(r, d)`.  Fuel `m` suffices for `m ≥ 1` (the
function is only reached with `n ≥ 2`, so `m = n - 1 ≥ 1`). -/
def split2Aux : Nat → Nat → Nat → Nat × Nat
  | 0, r, d => (r, d)
  | fuel + 1, r, d => if d % 2 = 0 ∧ d ≠ 0 then split2Aux fuel (r + 1) (d / 2) else (r, d)

/-- `r, d` with `n - 1 = d * 2^r`, `d` odd, as computed by `_is_probable_prime`. -/
def split2 (m : Nat) : Nat × Nat := split2Aux m 0 m

/-- Inner squaring loop of Miller–Rabin (`for _ in range(r - 1)`): repeatedly
square `x` mod `n`; `true` iff some square equals `n - 1` (the `break`). -/
def mrWitnessLoop : Nat → Nat → Nat → Bool
  | 0, _, _ => false
  | t + 1, x, n =>
    let x2 := x * x % n
    if x2 = n - 1 then true else mrWitnessLoop t x2 n

/-- One Miller–Rabin round of `_is_probable_prime` for base `a`
(`n - 1 = d * 2^r`): `true` iff the base does not witness compositeness. -/
def mrPassesBase (n d r a : Nat) : Bool :=
  let x := powMod a d n
  if x = 1 ∨ x = n - 1 then true
  else mrWitnessLoop (r - 1) x n

/-- `_is_probable_prime(n, k)` with the `k` random draws of
`random.randrange(2, n - 2)` supplied as the list `bases`
(the library guarantees `2 ≤ a ≤ n - 3` for each draw). -/
def is_probable_prime (n : Nat) (bases : List Nat) : Bool :=
  if n < 2 then false
  else
    let rd := split2 (n - 1)
    if n = 2 ∨ n = 3 then true
    else bases.all fun a => mrPassesBase n rd.2 rd.1 a

/-- Candidate loop of `generate_prime_with_digits`: each element of `draws` is
one iteration's `random.randrange(lower, upper)` draw paired with the Miller–
Rabin base draws of that iteration; `none` models the loop never finding a
probable prime within the supplied draws (the Python loop would keep drawing). -/
def genPrimeLoop : List (Nat × List Nat) → Option Nat
  | [] => none
  | (cand, bases) :: rest =>
    let c := if cand % 2 = 0 ∨ cand % 5 = 0 then cand + 1 else cand
    if is_probable_prime c bases then some c else genPrimeLoop rest

/-- `generate_prime_with_digits(num_digits)`; `none` for `num_digits < 1`
models the raised `ValueError` (and, via `genPrimeLoop`, exhausted draws). -/
def generate_prime_with_digits (num_digits : Nat) (draws : List (Nat × List Nat)) :
    Option Nat :=
  if num_digits < 1 then none else genPrimeLoop draws

/-- Binary-search integer square root, fuel-based so that it evaluates by
kernel reduction; invariant `lo^2 ≤ n < hi^2`. -/
def isqrtAux : Nat → Nat → Nat → Nat → Nat
  | 0, _, lo, _ => lo
  | fuel + 1, n, lo, hi =>
    if hi ≤ lo + 1 then lo
    else
      let m := (lo + hi) / 2
      if m * m ≤ n then isqrtAux fuel n m hi else isqrtAux fuel n lo m

/-- Python's `math.isqrt`. -/
def isqrt (n : Nat) : Nat := isqrtAux (n + 2) n 0 (n + 1)

/-- The `while n % 2 == 0` (and inner `while n % f == 0`) division loops of
`_prime_factors`: divide `f` out of `n` as often as it divides.  Fuel `n`
suffices for `f ≥ 2`, `n ≥ 1`. -/
def divideOut : Nat → Nat → Nat → Nat
  | 0, n, _ => n
  | fuel + 1, n, f => if n % f = 0 ∧ 2 ≤ f ∧ n ≠ 0 then divideOut fuel (n / f) f else n

/-- Outer trial-division loop of `_prime_factors` (`while f <= limit and n > 1`),
with the loop-carried `limit = isqrt(n) + 1` updated exactly when a factor is
divided out, as in the source.  Returns the factors `≥ 3` found, in increasing
order, followed by the final `n` if it exceeds 1; `none` on fuel exhaustion
(never reached from `_prime_factors`, whose fuel covers the loop bound). -/
def trialDivLoop : Nat → Nat → Nat → Nat → Option (List Nat)
  | 0, _, _, _ => none
  | fuel + 1, f, n, limit =>
    if f ≤ limit ∧ 1 < n then
      if n % f = 0 then
        let n' := divideOut n n f
        (trialDivLoop fuel (f + 2) n' (isqrt n' + 1)).map fun l => f :: l
      else trialDivLoop fuel (f + 2) n limit
    else some (if 1 < n then [n] else [])

/-- `_prime_factors(n)` (the set of prime factors of `n` by trial division),
as a sorted list.  Python's set iterates in unspecified order; all uses
(`smallest_primitive_root`) are order-independent conjunctions. -/
def prime_factors (n : Nat) : Option (List Nat) :=
  let twos := if n % 2 = 0 ∧ n ≠ 0 then [2] else []
  let m := divideOut n n 2
  (trialDivLoop (m + 2) 3 m (isqrt m + 1)).map fun l => twos ++ l

/-- Candidate loop of `smallest_primitive_root` (`for g in range(2, p)`):
try `g, g+1, ...`, returning the first candidate `g` with
`g^(phi/q) % p ≠ 1` for every `q` in `factors`; `none` when the range is
exhausted (Python raises `RuntimeError`). -/
def sprLoop (p phi : Nat) (factors : List Nat) : Nat → Nat → Option Nat
  | 0, _ => none
  | fuel + 1, g =>
    if factors.all fun q => powMod g (phi / q) p ≠ 1 then some g
    else sprLoop p phi factors fuel (g + 1)

/-- `smallest_primitive_root(p)`; `none` models the raised `ValueError`
(`p < 3`), a failure of the trial division fuel (unreachable), or the
raised `RuntimeError` (no candidate in `range(2, p)` passed). -/
def smallest_primitive_root (p : Nat) : Option Nat :=
  if p < 3 then none
  else
    let phi := p - 1
    match prime_factors phi with
    | none => none
    | some factors => sprLoop p phi factors (p - 2) 2

/-- The `for x in range(1, p)` loop of `brute_force_dlp`, carrying the
candidate discrete logs `a` of `A` and `b` of `B`; fuel `p - 1` makes it
exactly `range(1, p)`.  `3162277 < x` is the integer content of the source's
`x > 10**6.5` cutoff (`3162277^2 < 10^13 < 3162278^2`, and the float
`10**6.5` lies strictly between the two integers). -/
def bfdLoop (g p A B : Nat) : Nat → Nat → Option Nat → Option Nat →
    Option (Option Nat × Option Nat)
  | 0, _, a, b => some (a, b)
  | fuel + 1, x, a, b =>
    let val := powMod g x p
    let a' := if a = none ∧ val = A then some x else a
    let b' := if b = none ∧ val = B then some x else b
    if a'.isSome ∧ b'.isSome then some (a', b')
    else if 3162277 < x then none
    else bfdLoop g p A B fuel (x + 1) a' b'

/-- `brute_force_dlp(g, p, A, B)`: `none` is the give-up return `None`;
otherwise the returned pair `(a, b)` of optional exponents. -/
def brute_force_dlp (g p A B : Nat) : Option (Option Nat × Option Nat) :=
  bfdLoop g p A B (p - 1) 1 none none

/-! ### `crypto_utils.py`: `to_bytes` and `pack_for_signing` -/

/-- UTF-8 encoding of one Unicode code point (Python `str.encode("utf-8")`
for one character). -/
def utf8EncodeChar (c : Nat) : Bytes :=
  if c < 0x80 then [c]
  else if c < 0x800 then [0xC0 + c / 0x40, 0x80 + c % 0x40]
  else if c < 0x10000 then
    [0xE0 + c / 0x1000, 0x80 + c / 0x40 % 0x40, 0x80 + c % 0x40]
  else
    [0xF0 + c / 0x40000, 0x80 + c / 0x1000 % 0x40, 0x80 + c / 0x40 % 0x40, 0x80 + c % 0x40]

/-- Python's `s.encode("utf-8")`. -/
def strToBytes (s : String) : Bytes := (s.data.map fun c => utf8EncodeChar c.toNat).flatten

/-- The value types accepted by `to_bytes`: Python `bytes`, `str`, and
non-negative `int` (the repository never passes negative integers). -/
inductive FieldValue where
  | bytes (b : Bytes)
  | str (s : String)
  | int (n : Nat)
deriving DecidableEq, Repr

/-- `to_bytes(x)` from `crypto_utils.py`. -/
def to_bytes : FieldValue → Bytes
  | .bytes b => b
  | .str s => strToBytes s
  | .int n => if n = 0 then [0] else natToBEMin n

/-- One `(name, value)` field of `pack_for_signing`:
`[name_len:2][name][value_len:4][value]`.  `none` models the
`OverflowError` Python raises when a length does not fit its prefix. -/
def packField (name : String) (v : FieldValue) : Option Bytes :=
  let nameB := strToBytes name
  let valB := to_bytes v
  if nameB.length < 2 ^ 16 ∧ valB.length < 2 ^ 32 then
    some (natToBEFixed 2 nameB.length ++ nameB ++ natToBEFixed 4 valB.length ++ valB)
  else none

/-- `pack_for_signing(*named_fields)` from `crypto_utils.py`. -/
def pack_for_signing : List (String × FieldValue) → Option Bytes
  | [] => some []
  | (name, v) :: rest => do
    let f ← packField name v
    let r ← pack_for_signing rest
    pure (f ++ r)

/-! ### `signed_fields.py` -/

/-- `DHSignedFields`: the exact field set signed in DH messages. -/
structure DHSignedFields where
  name : String
  p : Nat
  g : Nat
  A : Nat
  nonce : Bytes
deriving DecidableEq, Repr

/-- `DHSignedFields.to_bytes()`. -/
def DHSignedFields.to_bytes (f : DHSignedFields) : Option Bytes :=
  pack_for_signing
    [("name", .str f.name), ("p", .int f.p), ("g", .int f.g),
     ("A", .int f.A), ("nonce", .bytes f.nonce)]

/-- `CSRSignedFields`: the field set signed in certificate signing requests. -/
structure CSRSignedFields where
  name : String
  public_key_pem : String
deriving DecidableEq, Repr

/-- `CSRSignedFields.to_bytes()`. -/
def CSRSignedFields.to_bytes (f : CSRSignedFields) : Option Bytes :=
  pack_for_signing [("name", .str f.name), ("public_key", .str f.public_key_pem)]

/-! ### `crypto_utils.py`: demo (textbook) RSA signing -/

/-- `simple_sign(message_bytes, d, n)`; `hash` is SHA-256, supplied as an
oracle (`hashlib.sha256(...).digest()`, 32 bytes). -/
def simple_sign (hash : Bytes → Bytes) (messageBytes : Bytes) (d n : Nat) : Bytes :=
  let mInt := beBytesToNat (hash messageBytes)
  let sigInt := powMod mInt d n
  natToBEFixed ((bitLength n + 7) / 8) sigInt

/-- `simple_verify(message_bytes, sig_bytes, e, n)`. -/
def simple_verify (hash : Bytes → Bytes) (messageBytes sigBytes : Bytes) (e n : Nat) :
    Bool :=
  let mInt := beBytesToNat (hash messageBytes)
  let sInt := beBytesToNat sigBytes
  powMod sInt e n = mInt

/-! ### `state_objects.py` -/

/-- `DiffieHellmanState.__init__`: every field starts as Python `None`. -/
structure DiffieHellmanState where
  p : Option Nat := none
  g : Option Nat := none
  x : Option Nat := none
  A : Option Nat := none
  B : Option Nat := none
  K : Option Nat := none
deriving DecidableEq, Repr

/-- The all-`None` state built by `DiffieHellmanState()`. -/
def DiffieHellmanState.init : DiffieHellmanState := {}

/-- `set_values(p, g)`. -/
def DiffieHellmanState.set_values (st : DiffieHellmanState) (p g : Nat) :
    DiffieHellmanState :=
  { st with p := some p, g := some g }

/-- `set_A(A)`. -/
def DiffieHellmanState.set_A (st : DiffieHellmanState) (A : Nat) : DiffieHellmanState :=
  { st with A := some A }

/-- `set_B(B)`. -/
def DiffieHellmanState.set_B (st : DiffieHellmanState) (B : Nat) : DiffieHellmanState :=
  { st with B := some B }

/-- `generate_keys()`: `randX` is the `random.randint(2, self.p - 1)` draw
(the library guarantees `2 ≤ randX ≤ p - 1`); `none` models the `TypeError`
Python raises when `p` or `g` is still `None`. -/
def DiffieHellmanState.generate_keys (st : DiffieHellmanState) (randX : Nat) :
    Option DiffieHellmanState :=
  match st.p, st.g with
  | some p, some g => some { st with x := some randX, A := some (powMod g randX p) }
  | _, _ => none

/-- `set_shared_key_from_pub(recived_A)`; `none` models the `TypeError` when
`x` or `p` is still `None`. -/
def DiffieHellmanState.set_shared_key_from_pub (st : DiffieHellmanState)
    (recivedA : Nat) : Option DiffieHellmanState :=
  match st.x, st.p with
  | some x, some p =>
    some { st with B := some recivedA, K := some (powMod recivedA x p) }
  | _, _ => none

/-- `generate_shared_key_from_secrets(x1, x2)`; `none` models the `TypeError`
when `g` or `p` is still `None`. -/
def DiffieHellmanState.generate_shared_key_from_secrets (st : DiffieHellmanState)
    (x1 x2 : Nat) : Option DiffieHellmanState :=
  match st.g, st.p with
  | some g, some p => some { st with K := some (powMod g (x1 * x2) p) }
  | _, _ => none

/-- `generate_values(is_weak)`: generate `p` (1-digit or 15-digit probable
prime) and `g = smallest_primitive_root(p)`; `draws` are the random draws
consumed by `generate_prime_with_digits`.  `none` models an exception or
exhausted draws inside either generator. -/
def DiffieHellmanState.generate_values (st : DiffieHellmanState) (isWeak : Bool)
    (draws : List (Nat × List Nat)) : Option DiffieHellmanState :=
  match generate_prime_with_digits (if isWeak then 1 else 15) draws with
  | none => none
  | some p =>
    match smallest_primitive_root p with
    | none => none
    | some g => some { st with p := some p, g := some g }

/-- `public_info()`: the `{p, g, A}` dictionary sent on the wire. -/
structure DHPublicInfo where
  p : Option Nat
  g : Option Nat
  A : Option Nat
deriving DecidableEq, Repr

/-- `DiffieHellmanState.public_info()`. -/
def DiffieHellmanState.public_info (st : DiffieHellmanState) : DHPublicInfo :=
  { p := st.p, g := st.g, A := st.A }

/-! ### Oracles for the external `cryptography` library and `constants.py`

The PKCS#1-v1.5 + SHA-256 primitives live in the external `cryptography`
package and the demo constants in `constants.py` (not part of `src/`), so
they enter the model as parameters: `Pub`/`Priv` are the RSA key types and
the fields below the operations the source calls on them. -/

structure RSAOracles (Pub Priv : Type) where
  /-- `hashlib.sha256(b).digest()`. -/
  hash : Bytes → Bytes
  /-- Success of `public_key.verify(signature, message, PKCS1v15, SHA256)`. -/
  rsaVerify : Bytes → Bytes → Pub → Bool
  /-- `private_key.sign(message, PKCS1v15, SHA256)`. -/
  rsaSign : Bytes → Priv → Bytes
  /-- `serialization.load_pem_public_key`; `none` models a raised parse error. -/
  pemParse : String → Option Pub
  /-- `public_key_pem_serialize`. -/
  pemSerialize : Pub → String
  /-- Modelled from the spec: `DEMO_N`, `DEMO_E`, `DEMO_D` from `constants.py`
  (not under `src/`), the fixed demo RSA triple. -/
  demoN : Nat
  demoE : Nat
  demoD : Nat

/-- `crypto_utils.verify(message_bytes, signature, public_key)`: the
`try/except` makes it a total Boolean. -/
def rsa_verify {Pub Priv : Type} (O : RSAOracles Pub Priv) (messageBytes sig : Bytes)
    (publicKey : Pub) : Bool :=
  O.rsaVerify messageBytes sig publicKey

/-! ### Certificates (`crypto_utils.verify_certificate`, `ca_server.py`) -/

/-- A certificate `body` dictionary; each field is `none` when the key is
absent from the dictionary. -/
structure CertBody where
  name : Option String
  public_key : Option String
  issuer : Option String
deriving DecidableEq, Repr

/-- Python falsiness of the body dictionary (`if not cert_body`): the empty
dictionary. -/
def CertBody.isFalsy (b : CertBody) : Bool :=
  b.name.isNone && b.public_key.isNone && b.issuer.isNone

/-- A certificate dictionary: `body` and `signature` (hex string), each
`none` when the key is absent. -/
structure Cert where
  body : Option CertBody
  signature : Option String
deriving DecidableEq, Repr

/-- `verify_certificate(cert, ca_public_key)`.  The enclosing `try/except`
of the source maps every raised exception (missing dictionary key, invalid
hex, unparsable PEM) to `(False, None)`, so the model is total. -/
def verify_certificate {Pub Priv : Type} (O : RSAOracles Pub Priv) (cert : Cert)
    (caPublicKey : Pub) : Bool × Option Pub :=
  match cert.body with
  | none => (false, none)
  | some certBody =>
    if certBody.isFalsy then (false, none)
    else
      match cert.signature with
      | none => (false, none)
      | some sigHex =>
        if sigHex = "" then (false, none)
        else
          match certBody.name, certBody.public_key, certBody.issuer with
          | some nm, some pk, some iss =>
            match pack_for_signing
                [("name", .str nm), ("public_key", .str pk), ("issuer", .str iss)] with
            | none => (false, none)
            | some certBodyBytes =>
              match bytesFromHex sigHex with
              | none => (false, none)
              | some certSig =>
                if rsa_verify O certBodyBytes certSig caPublicKey then
                  match O.pemParse pk with
                  | some subjectKey => (true, some subjectKey)
                  | none => (false, none)
                else (false, none)
          | _, _, _ => (false, none)

/-! ### `verify_dh_signature` -/

/-- The `body` of a DH wire message, with `nonce` already hex-decoded and
the claimed sender `name` (a message whose `nonce` or `signature` hex is
malformed raises before any check and is outside this model, which the
claims never exercise). -/
structure DHMessageBody where
  name : String
  p : Nat
  g : Nat
  A : Nat
  nonce : Bytes
deriving DecidableEq, Repr

/-- A DH wire message as consumed by `verify_dh_signature`: `cert` is
`data.get("cert")`, with `none` covering both an absent key and a falsy
(empty) value, which the source treats alike (`if not cert`). -/
structure DHMessage where
  body : DHMessageBody
  signature : Bytes
  cert : Option Cert
deriving DecidableEq, Repr

/-- `verify_dh_signature(data, ca_public_key, is_demo, logging, expected_name)`.
`none` models the `OverflowError` escaping from `pack_for_signing` (huge
field; unreachable for real messages); every other path returns a Boolean
as in the source. -/
def verify_dh_signature {Pub Priv : Type} (O : RSAOracles Pub Priv) (data : DHMessage)
    (caPublicKey : Pub) (isDemo : Bool) (expectedName : Option String) : Option Bool :=
  match DHSignedFields.to_bytes
      ⟨data.body.name, data.body.p, data.body.g, data.body.A, data.body.nonce⟩ with
  | none => none
  | some messageBytes =>
    if isDemo then
      some (simple_verify O.hash messageBytes data.signature O.demoE O.demoN)
    else
      match data.cert with
      | none => some false
      | some cert =>
        if !(verify_certificate O cert caPublicKey).1 then some false
        else if (match expectedName with
            | some en =>
              decide (en ≠ "" ∧ (cert.body.bind fun b => b.name) ≠ some en)
            | none => false) then some false
        else if data.body.name ≠ "" ∧
            (cert.body.bind fun b => b.name) ≠ some data.body.name then some false
        else
          match (verify_certificate O cert caPublicKey).2 with
          | some senderPublicKey =>
            some (rsa_verify O messageBytes data.signature senderPublicKey)
          | none => some false

/-! ### `ca_server.py`: `handle_csr` -/

/-- A CSR body dictionary (`name`, `public_key`), fields `none` when absent. -/
structure CSRBody where
  name : Option String
  public_key : Option String
deriving DecidableEq, Repr

/-- A CSR request message: `data.get("body")`, `data.get("signature")`. -/
structure CSRMessage where
  body : Option CSRBody
  signature : Option String
deriving DecidableEq, Repr

/-- Outcome of `handle_csr`: a 400 error response, a 200 response carrying
the issued certificate, or an uncaught exception (HTTP 500). -/
inductive CAResponse where
  | error (msg : String)
  | issued (cert : Cert)
  | exn
deriving DecidableEq, Repr

/-- `handle_csr` from `ca_server.py`. -/
def handle_csr {Pub Priv : Type} (O : RSAOracles Pub Priv) (caPrivateKey : Priv)
    (data : CSRMessage) : CAResponse :=
  match data.body, data.signature with
  | none, _ => .error "Missing body or signature"
  | some _, none => .error "Missing body or signature"
  | some body, some sigHex =>
    match body.name, body.public_key with
    | some name, some pubPem =>
      if name = "" ∨ pubPem = "" then .error "CSR body missing name/public_key"
      else
        match CSRSignedFields.to_bytes ⟨name, pubPem⟩ with
        | none => .exn
        | some csrBytes =>
          match O.pemParse pubPem with
          | none => .error "Invalid public key in CSR"
          | some requesterPub =>
            match bytesFromHex sigHex with
            | none => .error "Proof-of-possession failed"
            | some sig =>
              if rsa_verify O csrBytes sig requesterPub then
                match pack_for_signing
                    [("name", .str name), ("public_key", .str pubPem),
                     ("issuer", .str "Demo CA")] with
                | none => .exn
                | some certBodyBytes =>
                  .issued
                    { body := some ⟨some name, some pubPem, some "Demo CA"⟩,
                      signature := some (bytesToHex (O.rsaSign certBodyBytes caPrivateKey)) }
              else .error "Proof-of-possession failed"
    | _, _ => .error "CSR body missing name/public_key"

/-! ### `state_objects.RSAState` and `server_utils.py` -/

/-- `RSAState.__init__`: every field starts as Python `None`. -/
structure RSAState (Pub Priv : Type) where
  public_key : Option Pub := none
  private_key : Option Priv := none
  cert : Option Cert := none
  n : Option Nat := none
  e : Option Nat := none
  d : Option Nat := none

/-- `RSAState.generate_values(is_demo)`; `keypair` is the fresh
`rsa.generate_private_key` draw used when `is_demo` is false. -/
def RSAState.generate_values {Pub Priv : Type} (O : RSAOracles Pub Priv)
    (st : RSAState Pub Priv) (isDemo : Bool) (keypair : Priv × Pub) :
    RSAState Pub Priv :=
  if isDemo then { st with n := some O.demoN, e := some O.demoE, d := some O.demoD }
  else { st with private_key := some keypair.1, public_key := some keypair.2 }

/-- `server_utils.populate_rsa(is_demo)`. -/
def populate_rsa {Pub Priv : Type} (O : RSAOracles Pub Priv) (isDemo : Bool)
    (keypair : Priv × Pub) : RSAState Pub Priv :=
  RSAState.generate_values O {} isDemo keypair

/-- `server_utils.build_dh_fields(name, dh, nonce)`; `none` models the
`TypeError` that a still-`None` DH field raises downstream in
`pack_for_signing` (the dataclass itself would accept `None`). -/
def build_dh_fields (name : String) (dh : DiffieHellmanState) (nonce : Bytes) :
    Option DHSignedFields :=
  match dh.p, dh.g, dh.A with
  | some p, some g, some A => some ⟨name, p, g, A, nonce⟩
  | _, _, _ => none

/-- `server_utils.get_signature(message_bytes, rsa_state)`; `none` models the
raised `Exception` (no key material) or `TypeError` (`d` missing). -/
def get_signature {Pub Priv : Type} (O : RSAOracles Pub Priv) (messageBytes : Bytes)
    (rsaState : RSAState Pub Priv) : Option Bytes :=
  match rsaState.private_key with
  | some k => some (O.rsaSign messageBytes k)
  | none =>
    match rsaState.n, rsaState.d with
    | some n, some d => some (simple_sign O.hash messageBytes d n)
    | _, _ => none

/-! ### Wire messages and the actor servers -/

/-- Identity names from `constants.py`.  Modelled from the spec: `constants.py`
is not under `src/`; the spec fixes four symbolic role names. -/
def ALICE : String := "Alice"

/-- Identity name of the responder (see `ALICE`). -/
def BOB : String := "Bob"

/-- `DHSignedFields.serializable()`: the JSON form with hex-encoded nonce. -/
structure DHFieldsWire where
  name : String
  p : Nat
  g : Nat
  A : Nat
  nonce_hex : String
deriving DecidableEq, Repr

/-- `DHSignedFields.serializable()`. -/
def DHSignedFields.serializable (f : DHSignedFields) : DHFieldsWire :=
  ⟨f.name, f.p, f.g, f.A, bytesToHex f.nonce⟩

/-- Body of an outgoing `MessageObj`. -/
inductive MsgBody where
  | text (s : String)
  | dhPublic (i : DHPublicInfo)
  | dhFields (w : DHFieldsWire)
deriving DecidableEq, Repr

/-- An outgoing `MessageObj` (destination URL omitted: routing is external). -/
structure OutMessage where
  body : MsgBody
  from_name : String
  to_name : String
  stage : Rat
  signature : Option String := none
  cert : Option Cert := none
deriving DecidableEq, Repr

/-- An incoming message as the DH-band handlers read it: `data["body"]`
fields, hex-decoded `signature`, optional `cert`, sender and stage. -/
structure InMessage where
  body : DHMessageBody
  signature : Bytes
  cert : Option Cert
  from_name : String
  stage : Rat
deriving DecidableEq, Repr

/-- The `DHMessage` view that `verify_dh_signature` consumes. -/
def InMessage.asDHMessage (m : InMessage) : DHMessage :=
  ⟨m.body, m.signature, m.cert⟩

/-- Bob's module-level mutable state (`current_dh`, `current_rsa`). -/
structure BobState (Pub Priv : Type) where
  current_dh : Option DiffieHellmanState := none
  current_rsa : Option (RSAState Pub Priv) := none

/-- Per-call oracle draws for Bob's handlers. -/
structure BobEnv (Pub Priv : Type) where
  /-- `random.randint(2, p - 1)` inside `populate_dh`'s `generate_keys()`. -/
  randX : Nat
  /-- `generate_nonce()`. -/
  nonce : Bytes
  /-- `get_rsa_keys()` inside `populate_rsa()`. -/
  keypair : Priv × Pub
  /-- Result of `request_certificate_from_ca` (the remote CA call):
  `none` on no/failed response. -/
  caCert : Option Cert

/-- `bob_server.populate_dh(data)`: adopt `p, g`, generate a keypair with
the drawn exponent, derive the shared key. -/
def bob_populate_dh (data : InMessage) (randX : Nat) : Option DiffieHellmanState := do
  let dh := DiffieHellmanState.init.set_values data.body.p data.body.g
  let dh ← dh.generate_keys randX
  dh.set_shared_key_from_pub data.body.A

/-- `bob_server.handle_response(data)`, with the module globals threaded as
`st`.  Result: updated state, list of protocol messages sent via `send`,
and the handler's `jsonify` return value when it produces one; `none`
models an uncaught exception.  Note `full_auth_dh_response` assigns its DH
state to a *local* `current_dh` (no `global current_dh` statement), so in
the `stage >= 8` band the module-level `current_dh` is never written. -/
def bob_handle_response {Pub Priv : Type} (O : RSAOracles Pub Priv)
    (env : BobEnv Pub Priv) (caPublicKey : Pub) (st : BobState Pub Priv)
    (data : InMessage) : Option (BobState Pub Priv × List OutMessage × Option String) :=
  let stage := data.stage
  if stage = 0 then
    some (st, [{ body := .text "Hi Alice", from_name := BOB, to_name := ALICE,
                 stage := stage + 1/10 }], none)
  else if 1 ≤ stage ∧ stage < 2 then
    some (st, [{ body := .text "It's 4293", from_name := BOB, to_name := ALICE,
                 stage := stage + 1/10 }], none)
  else if 2 ≤ stage ∧ stage < 6 then
    match bob_populate_dh data env.randX with
    | none => none
    | some dh =>
      some ({ st with current_dh := some dh },
            [{ body := .dhPublic dh.public_info, from_name := BOB, to_name := ALICE,
               stage := stage + 1/10 }], none)
  else if 6 ≤ stage ∧ stage < 8 then
    match verify_dh_signature O data.asDHMessage caPublicKey true none with
    | none => none
    | some false => some (st, [], none)
    | some true => some (st, [], none)
  else
    -- full_auth_dh_response(data)
    match verify_dh_signature O data.asDHMessage caPublicKey false (some ALICE) with
    | none => none
    | some false => some (st, [], some "Message rejected")
    | some true =>
      match bob_populate_dh data env.randX with
      | none => none
      | some localDh =>
        let rsa := populate_rsa O false env.keypair
        match env.caCert with
        | none =>
          some ({ st with current_rsa := some rsa }, [], some "Certificate request failed")
        | some caCert =>
          let rsa := { rsa with cert := some caCert }
          match build_dh_fields BOB localDh env.nonce with
          | none => none
          | some dhFields =>
            match dhFields.to_bytes with
            | none => none
            | some messageBytes =>
              match get_signature O messageBytes rsa with
              | none => none
              | some dhSig =>
                some ({ st with current_rsa := some rsa },
                      [{ body := .dhFields dhFields.serializable, from_name := BOB,
                         to_name := ALICE, stage := stage + 1/10,
                         signature := some (bytesToHex dhSig), cert := rsa.cert }],
                      none)

/-- `alice_server.handle_response(data)`, with the module-level `current_dh`
threaded.  Result: updated `current_dh` and sent messages; `none` models an
uncaught exception (e.g. `current_dh` still `None` in a DH band). -/
def alice_handle_response {Pub Priv : Type} (O : RSAOracles Pub Priv)
    (caPublicKey : Pub) (currentDh : Option DiffieHellmanState) (data : InMessage) :
    Option (Option DiffieHellmanState × List OutMessage) :=
  let stage := data.stage
  if 0 ≤ stage ∧ stage < 2 then
    some (currentDh, [])
  else if 2 ≤ stage ∧ stage < 6 then
    match currentDh with
    | none => none
    | some dh =>
      match dh.set_shared_key_from_pub data.body.A with
      | none => none
      | some dh' => some (some dh', [])
  else if 6 ≤ stage ∧ stage < 8 then
    some (currentDh, [])
  else
    match verify_dh_signature O data.asDHMessage caPublicKey false (some BOB) with
    | none => none
    | some false => some (currentDh, [])
    | some true =>
      match currentDh with
      | none => none
      | some dh =>
        match dh.set_shared_key_from_pub data.body.A with
        | none => none
        | some dh' => some (some dh', [])

/-! ### `mitm.py`: weak-DH attack branch (stages 3–5, message from Bob) -/

/-- Outcome of the MITM's brute-force branch. -/
inductive MitmAttackOutcome where
  | keyFound (st : DiffieHellmanState)
  | timeout (st : DiffieHellmanState)
  | exn
deriving DecidableEq, Repr

/-- The `stage 3–5, from_name == Bob` branch of `mitm.respond`:
`shared_dh.set_B(A)`, brute-force both discrete logs, and on any non-`None`
result pass its two components straight to
`generate_shared_key_from_secrets`.  `.exn` models the `TypeError` raised by
`pow` when a component is `None` (or by missing state fields). -/
def mitm_handle_bob_reply (sharedDh : DiffieHellmanState) (bodyA : Nat) :
    MitmAttackOutcome :=
  let st := sharedDh.set_B bodyA
  match st.g, st.p, st.A, st.B with
  | some g, some p, some A, some B =>
    match brute_force_dlp g p A B with
    | none => .timeout st
    | some (some x1, some x2) =>
      match st.generate_shared_key_from_secrets x1 x2 with
      | some st' => .keyFound st'
      | none => .exn
    | some _ => .exn
  | _, _, _, _ => .exn

/-! ## Claims -/

/-! ### C1: both sides of an honest DH-only exchange derive `g^(xy) mod p` -/

theorem pow_mod_pow_comm (g x y p : Nat) :
    (g ^ y % p) ^ x % p = g ^ (x * y) % p := by
  rw [← Nat.pow_mod, ← pow_mul, mul_comm]

/-- C1: for every prime `p`, generator `g`, and private exponents `x, y` in
the range `generate_keys` draws from, with public values as produced by
`generate_keys`, each side's `set_shared_key_from_pub` on the other side's
public value yields `K = g^(x*y) mod p`; in particular the two `K`s agree. -/
theorem dh_both_sides_derive_shared_key (p g x y A B : Nat) (hp : Nat.Prime p)
    (hg : smallest_primitive_root p = some g)
    (hx1 : 2 ≤ x) (hx2 : x ≤ p - 1) (hy1 : 2 ≤ y) (hy2 : y ≤ p - 1)
    (stA stB stA' stB' : DiffieHellmanState)
    (hA : (DiffieHellmanState.init.set_values p g).generate_keys x = some stA)
    (hB : (DiffieHellmanState.init.set_values p g).generate_keys y = some stB)
    (hpubA : stA.A = some A) (hpubB : stB.A = some B)
    (hKA : stA.set_shared_key_from_pub B = some stA')
    (hKB : stB.set_shared_key_from_pub A = some stB') :
    stA'.K = some (g ^ (x * y) % p) ∧ stB'.K = some (g ^ (x * y) % p) ∧
      stA'.K = stB'.K := by
  simp only [DiffieHellmanState.generate_keys, DiffieHellmanState.set_values,
    DiffieHellmanState.init, Option.some.injEq] at hA hB
  subst hA; subst hB
  simp only at hpubA hpubB
  simp only [DiffieHellmanState.set_shared_key_from_pub, Option.some.injEq] at hKA hKB
  subst hKA; subst hKB
  rw [Option.some.injEq] at hpubA hpubB
  subst hpubA; subst hpubB
  simp only [powMod_eq]
  refine ⟨?_, ?_, ?_⟩
  · rw [pow_mod_pow_comm]
  · rw [pow_mod_pow_comm, mul_comm x y]
  · rw [pow_mod_pow_comm, pow_mod_pow_comm, mul_comm x y]

/-- Witness for C1 at `p = 7`, `g = 3`, `x = 2`, `y = 3`. -/
theorem dh_both_sides_derive_shared_key_witness :
    (⟨some 7, some 3, some 2, some 2, some 6, some 1⟩ : DiffieHellmanState).K =
        some (3 ^ (2 * 3) % 7) ∧
      (⟨some 7, some 3, some 3, some 6, some 2, some 1⟩ : DiffieHellmanState).K =
        some (3 ^ (2 * 3) % 7) ∧
      (⟨some 7, some 3, some 2, some 2, some 6, some 1⟩ : DiffieHellmanState).K =
        (⟨some 7, some 3, some 3, some 6, some 2, some 1⟩ : DiffieHellmanState).K :=
  dh_both_sides_derive_shared_key 7 3 2 3 2 6 (by norm_num) (by rfl)
    (by norm_num) (by norm_num) (by norm_num) (by norm_num)
    ⟨some 7, some 3, some 2, some 2, none, none⟩
    ⟨some 7, some 3, some 3, some 6, none, none⟩
    ⟨some 7, some 3, some 2, some 2, some 6, some 1⟩
    ⟨some 7, some 3, some 3, some 6, some 2, some 1⟩
    rfl rfl rfl rfl rfl rfl

/-! ### C2: determinism and injectivity of `pack_for_signing` -/

theorem pack_for_signing_cons (name : String) (v : FieldValue)
    (rest : List (String × FieldValue)) (b : Bytes)
    (h : pack_for_signing ((name, v) :: rest) = some b) :
    ∃ f r, packField name v = some f ∧ pack_for_signing rest = some r ∧ b = f ++ r := by
  simp only [pack_for_signing, Option.bind_eq_bind, Option.bind_eq_some] at h
  obtain ⟨f, hf, r, hr, hb⟩ := h
  exact ⟨f, r, hf, hr, by simpa using hb.symm⟩

theorem packField_shape (name : String) (v : FieldValue) (f : Bytes)
    (h : packField name v = some f) :
    (strToBytes name).length < 2 ^ 16 ∧ (to_bytes v).length < 2 ^ 32 ∧
      f = natToBEFixed 2 (strToBytes name).length ++ strToBytes name ++
        natToBEFixed 4 (to_bytes v).length ++ to_bytes v := by
  simp only [packField] at h
  split at h
  · rename_i hcond
    exact ⟨hcond.1, hcond.2, (Option.some.inj h).symm⟩
  · exact absurd h (by simp)

/-- C2 (amended): `pack_for_signing` is deterministic, and injective with
respect to the *byte representation* of a field value: two field sequences
with identical names and identical other fields whose values at one
position have different `to_bytes` images pack to different byte strings.
(The original claim — different *values* give different bytes — fails
because `to_bytes` identifies values across types, see the counterexample.) -/
theorem pack_for_signing_deterministic_and_injective
    (pre suf : List (String × FieldValue)) (name : String) (v1 v2 : FieldValue)
    (b1 b2 : Bytes) (hne : to_bytes v1 ≠ to_bytes v2)
    (h1 : pack_for_signing (pre ++ (name, v1) :: suf) = some b1)
    (h2 : pack_for_signing (pre ++ (name, v2) :: suf) = some b2) :
    (∀ fs : List (String × FieldValue), pack_for_signing fs = pack_for_signing fs) ∧
      b1 ≠ b2 := by
  refine ⟨fun _ => rfl, ?_⟩
  induction pre generalizing b1 b2 with
  | nil =>
    simp only [List.nil_append] at h1 h2
    obtain ⟨f1, r1, hf1, hr1, hb1⟩ := pack_for_signing_cons _ _ _ _ h1
    obtain ⟨f2, r2, hf2, hr2, hb2⟩ := pack_for_signing_cons _ _ _ _ h2
    have hr : r1 = r2 := by rw [hr1] at hr2; exact Option.some.inj hr2
    subst hr; subst hb1; subst hb2
    obtain ⟨hn1, hv1, hs1⟩ := packField_shape _ _ _ hf1
    obtain ⟨hn2, hv2, hs2⟩ := packField_shape _ _ _ hf2
    subst hs1; subst hs2
    intro heq
    simp only [List.append_assoc] at heq
    have heq2 := List.append_cancel_left heq
    have heq3 := List.append_cancel_left heq2
    have hlen : (natToBEFixed 4 (to_bytes v1).length).length =
        (natToBEFixed 4 (to_bytes v2).length).length := by
      simp [natToBEFixed_length]
    obtain ⟨-, heq4⟩ := List.append_inj heq3 hlen
    exact hne (List.append_cancel_right heq4)
  | cons hd pre ih =>
    simp only [List.cons_append] at h1 h2
    obtain ⟨f1, r1, hf1, hr1, hb1⟩ := pack_for_signing_cons _ _ _ _ h1
    obtain ⟨f2, r2, hf2, hr2, hb2⟩ := pack_for_signing_cons _ _ _ _ h2
    have hf : f1 = f2 := by rw [hf1] at hf2; exact Option.some.inj hf2
    subst hf; subst hb1; subst hb2
    intro heq
    exact ih r1 r2 hr1 hr2 (List.append_cancel_left heq)

/-- C2 counterexample: the integer `65` and the string `"A"` are different
field values with identical `to_bytes` images, so packing them under the
same field name yields identical bytes — the claim's cross-type injectivity
fails. -/
theorem pack_for_signing_value_collision :
    FieldValue.int 65 ≠ FieldValue.str "A" ∧
      pack_for_signing [("a", FieldValue.int 65)] =
        pack_for_signing [("a", FieldValue.str "A")] :=
  ⟨by decide, by rfl⟩

/-- Witness for C2 at a one-field sequence with values `0` and `1`. -/
theorem pack_for_signing_deterministic_and_injective_witness :
    ([0, 1, 97, 0, 0, 0, 1, 0] : Bytes) ≠ [0, 1, 97, 0, 0, 0, 1, 1] :=
  (pack_for_signing_deterministic_and_injective [] [] "a" (.int 0) (.int 1)
    [0, 1, 97, 0, 0, 0, 1, 0] [0, 1, 97, 0, 0, 0, 1, 1] (by decide) rfl rfl).2

/-! ### C9: totality and fail-closed behaviour of `verify_certificate` -/

/-- C9: `verify_certificate` is total at its interface (the `try/except`
means each input maps to a result, `(False, None)` on every failure path)
and returns a subject key only alongside `True`: for every certificate
dictionary the result is either `(false, none)` or `(true, some key)`;
a missing body, an empty body, a missing signature, a non-hex signature
string, and an unparsable embedded public key each yield `(false, none)`. -/
theorem verify_certificate_total_and_fail_closed {Pub Priv : Type}
    (O : RSAOracles Pub Priv) (caKey : Pub) :
    (∀ cert : Cert, verify_certificate O cert caKey = (false, none) ∨
        ∃ pk, verify_certificate O cert caKey = (true, some pk)) ∧
      (∀ cert : Cert, (verify_certificate O cert caKey).2.isSome →
        (verify_certificate O cert caKey).1 = true) ∧
      (∀ cert : Cert, cert.body = none →
        verify_certificate O cert caKey = (false, none)) ∧
      (∀ (cert : Cert) (b : CertBody), cert.body = some b → b.isFalsy →
        verify_certificate O cert caKey = (false, none)) ∧
      (∀ (cert : Cert) (b : CertBody), cert.body = some b →
        cert.signature = none → verify_certificate O cert caKey = (false, none)) ∧
      (∀ (cert : Cert) (b : CertBody) (sigHex : String), cert.body = some b →
        cert.signature = some sigHex → bytesFromHex sigHex = none →
        verify_certificate O cert caKey = (false, none)) ∧
      (∀ (cert : Cert) (nm pk iss sigHex : String),
        cert.body = some ⟨some nm, some pk, some iss⟩ →
        cert.signature = some sigHex → O.pemParse pk = none →
        verify_certificate O cert caKey = (false, none)) := by
  have key : ∀ cert : Cert, verify_certificate O cert caKey = (false, none) ∨
      ∃ pk, verify_certificate O cert caKey = (true, some pk) := by
    intro cert
    unfold verify_certificate
    repeat' split
    all_goals first
      | exact Or.inl rfl
      | exact Or.inr ⟨_, rfl⟩
  refine ⟨key, ?_, ?_, ?_, ?_, ?_, ?_⟩
  · intro cert hsome
    rcases key cert with h | ⟨pk, h⟩
    · rw [h] at hsome; simp at hsome
    · rw [h]
  · intro cert h
    unfold verify_certificate
    rw [h]
  · intro cert b hb hfalsy
    unfold verify_certificate
    rw [hb]
    simp [hfalsy]
  · intro cert b hb hsig
    rcases cert with ⟨body, sig⟩
    simp only at hb hsig
    subst hb; subst hsig
    unfold verify_certificate
    repeat' split
    all_goals first
      | rfl
      | simp_all
  · intro cert b sigHex hb hsig hhex
    rcases cert with ⟨body, sig⟩
    simp only at hb hsig
    subst hb; subst hsig
    unfold verify_certificate
    simp only [hhex]
    repeat' split
    all_goals simp_all
  · intro cert nm pk iss sigHex hb hsig hpem
    rcases cert with ⟨body, sig⟩
    simp only at hb hsig
    subst hb; subst hsig
    unfold verify_certificate
    simp only [CertBody.isFalsy, hpem]
    repeat' split
    all_goals simp_all

/-- Witness for C9: a certificate with a missing body fails closed. -/
theorem verify_certificate_total_and_fail_closed_witness :
    verify_certificate
        ({ hash := id, rsaVerify := fun _ _ _ => true, rsaSign := fun _ _ => [0],
           pemParse := fun _ => some (), pemSerialize := fun _ => "PEM",
           demoN := 1, demoE := 1, demoD := 1 } : RSAOracles Unit Unit)
        ⟨none, none⟩ () = (false, none) :=
  (verify_certificate_total_and_fail_closed _ ()).2.2.1 ⟨none, none⟩ rfl

/-! ### C4: identity binding in `verify_dh_signature` (certificate path) -/

/-- The certificate subject name of a DH message
(`data["cert"]["body"].get("name")`). -/
def DHMessage.certSubjectName (m : DHMessage) : Option String :=
  m.cert.bind fun c => c.body.bind fun b => b.name

/-- Every path of the non-demo `verify_dh_signature` that returns `True`
passed both identity checks. -/
theorem verify_dh_signature_true_implies_checks {Pub Priv : Type}
    (O : RSAOracles Pub Priv) (data : DHMessage) (caKey : Pub)
    (expected : Option String)
    (h : verify_dh_signature O data caKey false expected = some true) :
    ∃ cert pk, data.cert = some cert ∧
      verify_certificate O cert caKey = (true, some pk) ∧
      (∀ en, expected = some en → en = "" ∨
        (cert.body.bind fun b => b.name) = some en) ∧
      (data.body.name = "" ∨
        (cert.body.bind fun b => b.name) = some data.body.name) := by
  unfold verify_dh_signature at h
  rcases hmb : DHSignedFields.to_bytes
      ⟨data.body.name, data.body.p, data.body.g, data.body.A, data.body.nonce⟩
    with _ | mb <;> rw [hmb] at h
  · exact absurd h (by simp)
  · simp only [Bool.false_eq_true, if_false] at h
    rcases hcert : data.cert with _ | cert <;> rw [hcert] at h
    · exact absurd h (by simp)
    · simp only [] at h
      by_cases hv1 : (verify_certificate O cert caKey).1 = true
      · rw [hv1] at h
        simp only [Bool.not_true, Bool.false_eq_true, if_false] at h
        split at h
        · exact absurd h (by simp)
        · split at h
          · exact absurd h (by simp)
          · rename_i hg1 hg2
            rcases hsnd : (verify_certificate O cert caKey).2 with _ | pk <;>
              rw [hsnd] at h
            · exact absurd h (by simp)
            · refine ⟨cert, pk, rfl, ?_, ?_, ?_⟩
              · calc verify_certificate O cert caKey
                    = ((verify_certificate O cert caKey).1,
                       (verify_certificate O cert caKey).2) := rfl
                  _ = (true, some pk) := by rw [hv1, hsnd]
              · intro en hen
                subst hen
                simp only [decide_eq_true_eq] at hg1
                by_cases he : en = ""
                · exact Or.inl he
                · right
                  by_contra hne
                  exact hg1 ⟨he, hne⟩
              · by_cases hb : data.body.name = ""
                · exact Or.inl hb
                · right
                  by_contra hne
                  exact hg2 ⟨hb, hne⟩
      · have hv1' : (verify_certificate O cert caKey).1 = false := by
          simpa using hv1
        rw [hv1'] at h
        exact absurd h (by simp)

/-- C4 (amended): in the certificate path (non-demo), `verify_dh_signature`
returns `True` only if the certificate subject equals any non-empty expected
peer name supplied by the caller, and equals the body's claimed sender name
whenever that name is non-empty; an empty claimed sender name skips the
body-identity check (see the counterexample). -/
theorem verify_dh_signature_identity_binding {Pub Priv : Type}
    (O : RSAOracles Pub Priv) (data : DHMessage) (caKey : Pub) (en : String)
    (expected : Option String) :
    (en ≠ "" → data.certSubjectName ≠ some en →
      verify_dh_signature O data caKey false (some en) ≠ some true) ∧
    (data.body.name ≠ "" → data.certSubjectName ≠ some data.body.name →
      verify_dh_signature O data caKey false expected ≠ some true) := by
  constructor
  · intro hen hmm h
    obtain ⟨cert, pk, hcert, hvc, hexp, hbody⟩ :=
      verify_dh_signature_true_implies_checks O data caKey (some en) h
    rcases hexp en rfl with he | hname
    · exact hen he
    · exact hmm (by simp [DHMessage.certSubjectName, hcert, hname])
  · intro hbn hmm h
    obtain ⟨cert, pk, hcert, hvc, hexp, hbody⟩ :=
      verify_dh_signature_true_implies_checks O data caKey expected h
    rcases hbody with he | hname
    · exact hbn he
    · exact hmm (by simp [DHMessage.certSubjectName, hcert, hname])

/-- Oracle instantiation in which every RSA verification succeeds and every
PEM parses; used to exhibit reachable acceptance paths. -/
def oraclesAllValid : RSAOracles Unit Unit :=
  { hash := fun _ => [1], rsaVerify := fun _ _ _ => true, rsaSign := fun _ _ => [1],
    pemParse := fun _ => some (), pemSerialize := fun _ => "PEM",
    demoN := 1, demoE := 1, demoD := 1 }

/-- C4 counterexample: a message whose body claims the empty sender name `""`
while its (otherwise valid) certificate subject is `"Alice"` — the subject
differs from the claimed sender identity, yet `verify_dh_signature` returns
`True` because the falsy body name skips the body-identity check. -/
theorem verify_dh_signature_accepts_subject_sender_mismatch :
    verify_dh_signature oraclesAllValid
        ⟨⟨"", 5, 2, 3, [7]⟩, [1],
          some ⟨some ⟨some "Alice", some "PK", some "CA"⟩, some "aa"⟩⟩
        () false (some ALICE) = some true ∧
      DHMessage.certSubjectName
          ⟨⟨"", 5, 2, 3, [7]⟩, [1],
            some ⟨some ⟨some "Alice", some "PK", some "CA"⟩, some "aa"⟩⟩ ≠
        some "" := by
  constructor
  · rfl
  · decide

/-- Witness for C4: with a certificate subject `"Mallory"`, expecting
`"Alice"` rejects, and a claimed body name `"Bob"` also rejects. -/
theorem verify_dh_signature_identity_binding_witness :
    verify_dh_signature oraclesAllValid
        ⟨⟨"Bob", 5, 2, 3, [7]⟩, [1],
          some ⟨some ⟨some "Mallory", some "PK", some "CA"⟩, some "aa"⟩⟩
        () false (some "Alice") ≠ some true :=
  (verify_dh_signature_identity_binding oraclesAllValid
    ⟨⟨"Bob", 5, 2, 3, [7]⟩, [1],
      some ⟨some ⟨some "Mallory", some "PK", some "CA"⟩, some "aa"⟩⟩
    () "Alice" (some "Alice")).1 (by decide) (by decide)

/-! ### C5: CSR proof-of-possession gate in `handle_csr` -/

theorem hexDigitVal_hexDigitChar (v : Nat) (h : v < 16) :
    hexDigitVal (hexDigitChar v) = some v := by
  interval_cases v <;> rfl

theorem hexDigitChar_ne_space (v : Nat) (h : v < 16) : hexDigitChar v ≠ ' ' := by
  interval_cases v <;> decide

theorem bytesFromHex_bytesToHex (b : Bytes) (hb : ∀ x ∈ b, x < 256) :
    bytesFromHex (bytesToHex b) = some b := by
  induction b with
  | nil => rfl
  | cons x rest ih =>
    have hx : x < 256 := hb x (List.mem_cons_self x rest)
    have hrest : ∀ y ∈ rest, y < 256 := fun y hy => hb y (List.mem_cons_of_mem x hy)
    have hdiv : x / 16 < 16 := by omega
    have hmod : x % 16 < 16 := by omega
    show hexPairs (hexDigitChar (x / 16) :: hexDigitChar (x % 16) ::
      rest.flatMap fun y => [hexDigitChar (y / 16), hexDigitChar (y % 16)]) = some (x :: rest)
    rw [hexPairs, if_neg (hexDigitChar_ne_space _ hdiv)]
    simp only [hexDigitVal_hexDigitChar _ hdiv, hexDigitVal_hexDigitChar _ hmod,
      Option.bind_eq_bind, Option.some_bind]
    have : hexPairs (rest.flatMap fun y =>
        [hexDigitChar (y / 16), hexDigitChar (y % 16)]) = some rest := ih hrest
    rw [this]
    simp only [Option.some_bind, Nat.div_add_mod]
    rfl

theorem bytesToHex_ne_empty (b : Bytes) (hb : b ≠ []) : bytesToHex b ≠ "" := by
  rcases b with _ | ⟨x, rest⟩
  · exact absurd rfl hb
  · intro h
    have := congrArg String.data h
    simp [bytesToHex] at this

/-- C5: the Authority's `handle_csr` rejects with an error (issuing nothing)
every CSR whose proof-of-possession signature fails against the public key
embedded in the CSR over the CSR's canonical encoding, and on success issues
a certificate whose signature verifies under the CA's public key over the
canonical encoding of `{name, public_key, issuer}` (the statement of
`verify_certificate`).  The hypotheses record the contract of the external
RSA primitives: the CA's keypair round-trips, signatures are non-empty byte
strings. -/
theorem handle_csr_pop_gate {Pub Priv : Type} (O : RSAOracles Pub Priv)
    (caPriv : Priv) (caPub : Pub)
    (hsound : ∀ m : Bytes, rsa_verify O m (O.rsaSign m caPriv) caPub = true)
    (hbytes : ∀ m : Bytes, ∀ x ∈ O.rsaSign m caPriv, x < 256)
    (hne : ∀ m : Bytes, O.rsaSign m caPriv ≠ []) :
    (∀ (name pubPem sigHex : String) (pk : Pub) (sig csrBytes : Bytes),
      name ≠ "" → pubPem ≠ "" →
      CSRSignedFields.to_bytes ⟨name, pubPem⟩ = some csrBytes →
      O.pemParse pubPem = some pk →
      bytesFromHex sigHex = some sig →
      rsa_verify O csrBytes sig pk = false →
      handle_csr O caPriv ⟨some ⟨some name, some pubPem⟩, some sigHex⟩ =
        .error "Proof-of-possession failed") ∧
    (∀ (name pubPem sigHex : String) (pk : Pub) (sig csrBytes : Bytes) (cert : Cert),
      name ≠ "" → pubPem ≠ "" →
      CSRSignedFields.to_bytes ⟨name, pubPem⟩ = some csrBytes →
      O.pemParse pubPem = some pk →
      bytesFromHex sigHex = some sig →
      rsa_verify O csrBytes sig pk = true →
      handle_csr O caPriv ⟨some ⟨some name, some pubPem⟩, some sigHex⟩ =
        .issued cert →
      (verify_certificate O cert caPub).1 = true) := by
  constructor
  · intro name pubPem sigHex pk sig csrBytes hname hpub hcsr hpem hhex hfail
    unfold handle_csr
    dsimp only
    rw [if_neg (by simp [hname, hpub]), hcsr, hpem, hhex]
    dsimp only
    rw [hfail]
    simp
  · intro name pubPem sigHex pk sig csrBytes cert hname hpub hcsr hpem hhex hok hcert
    unfold handle_csr at hcert
    dsimp only at hcert
    rw [if_neg (by simp [hname, hpub]), hcsr, hpem, hhex] at hcert
    dsimp only at hcert
    rw [hok] at hcert
    simp only [if_true] at hcert
    rcases hpack : pack_for_signing
        [("name", FieldValue.str name), ("public_key", FieldValue.str pubPem),
         ("issuer", FieldValue.str "Demo CA")] with _ | cbb <;> rw [hpack] at hcert
    · exact absurd hcert (by simp)
    · simp only [CAResponse.issued.injEq] at hcert
      subst hcert
      unfold verify_certificate
      dsimp only
      rw [if_neg (by simp [CertBody.isFalsy])]
      rw [if_neg (bytesToHex_ne_empty _ (hne cbb))]
      rw [hpack, bytesFromHex_bytesToHex _ (hbytes cbb)]
      dsimp only
      rw [hsound cbb]
      simp [hpem]

/-- Toy oracle with `Nat` keys: signing emits the key, verification compares. -/
def natKeyOracles : RSAOracles Nat Nat :=
  { hash := fun _ => [1], rsaVerify := fun _ s k => decide (s = [k]),
    rsaSign := fun _ k => [k], pemParse := fun _ => some 5,
    pemSerialize := fun _ => "PEM", demoN := 1, demoE := 1, demoD := 1 }

/-- Witness for C5: a CSR signed `[0]` fails proof-of-possession under key 5. -/
theorem handle_csr_pop_gate_witness :
    handle_csr natKeyOracles 5 ⟨some ⟨some "Alice", some "PK"⟩, some "00"⟩ =
      .error "Proof-of-possession failed" :=
  (handle_csr_pop_gate natKeyOracles 5 5 (fun m => by rfl)
      (fun m x hx => by simp [natKeyOracles] at hx; omega)
      (fun m => by simp [natKeyOracles])).1
    "Alice" "PK" "00" 5 [0] _ (by decide) (by decide) rfl rfl rfl rfl

/-! ### C3: a failed `verify_dh_signature` aborts the exchange -/

/-- C3: in the DH+signature band (`6 ≤ stage < 8`) and the DH+certificate
band (`stage ≥ 8`), a receiving actor for which `verify_dh_signature`
returns `False` sends nothing toward the peer, performs no DH completion,
and leaves its entire mutable state (including the DH secret slot)
unchanged; Bob's certificate band additionally answers only the local
`"Message rejected"` acknowledgement. -/
theorem verify_failure_aborts_exchange {Pub Priv : Type} (O : RSAOracles Pub Priv)
    (caPub : Pub) :
    (∀ (env : BobEnv Pub Priv) (st : BobState Pub Priv) (data : InMessage),
      6 ≤ data.stage → data.stage < 8 →
      verify_dh_signature O data.asDHMessage caPub true none = some false →
      bob_handle_response O env caPub st data = some (st, [], none)) ∧
    (∀ (env : BobEnv Pub Priv) (st : BobState Pub Priv) (data : InMessage),
      8 ≤ data.stage →
      verify_dh_signature O data.asDHMessage caPub false (some ALICE) = some false →
      bob_handle_response O env caPub st data = some (st, [], some "Message rejected")) ∧
    (∀ (currentDh : Option DiffieHellmanState) (data : InMessage),
      8 ≤ data.stage →
      verify_dh_signature O data.asDHMessage caPub false (some BOB) = some false →
      alice_handle_response O caPub currentDh data = some (currentDh, [])) := by
  refine ⟨?_, ?_, ?_⟩
  · intro env st data h6 h8 hv
    unfold bob_handle_response
    rw [if_neg (by intro h; rw [h] at h6; norm_num at h6)]
    rw [if_neg (by rintro ⟨-, h⟩; linarith)]
    rw [if_neg (by rintro ⟨-, h⟩; linarith)]
    rw [if_pos ⟨h6, h8⟩, hv]
  · intro env st data h8 hv
    unfold bob_handle_response
    rw [if_neg (by intro h; rw [h] at h8; norm_num at h8)]
    rw [if_neg (by rintro ⟨-, h⟩; linarith)]
    rw [if_neg (by rintro ⟨-, h⟩; linarith)]
    rw [if_neg (by rintro ⟨-, h⟩; linarith)]
    rw [hv]
  · intro currentDh data h8 hv
    unfold alice_handle_response
    rw [if_neg (by rintro ⟨-, h⟩; linarith)]
    rw [if_neg (by rintro ⟨-, h⟩; linarith)]
    rw [if_neg (by rintro ⟨-, h⟩; linarith)]
    rw [hv]

/-- Witness for C3: with the toy oracle the demo verification fails on a
concrete stage-6 message, and Bob's handler returns his state unchanged
with no outgoing messages. -/
theorem verify_failure_aborts_exchange_witness :
    bob_handle_response natKeyOracles
        ⟨2, [7], (5, 5), none⟩ 5 {}
        ⟨⟨"Alice", 5, 2, 3, [7]⟩, [1], none, "Alice", 6⟩ =
      some ({}, [], none) :=
  (verify_failure_aborts_exchange natKeyOracles 5).1
    ⟨2, [7], (5, 5), none⟩ {} ⟨⟨"Alice", 5, 2, 3, [7]⟩, [1], none, "Alice", 6⟩
    (by norm_num) (by norm_num) (by rfl)

/-! ### C10: the two failure modes of `brute_force_dlp` and the MITM caller -/

/-- C10: `brute_force_dlp` signals its failure modes differently — exceeding
the iteration cutoff returns `None` at once, while exhausting `range(1, p)`
without a match returns a tuple whose components may be `None`
(e.g. `A = 0` is never a power of `g = 3` mod `7`); the MITM caller treats
every non-`None` tuple as success: `None` is logged as a timeout, a tuple of
two exponents reaches `generate_shared_key_from_secrets`, and a tuple with a
`None` component reaches it too, raising `TypeError` inside `pow`. -/
theorem brute_force_dlp_failure_modes :
    (∀ g p A B fuel x a b, 3162277 < x →
      ¬((if a = none ∧ powMod g x p = A then some x else a).isSome = true ∧
        (if b = none ∧ powMod g x p = B then some x else b).isSome = true) →
      bfdLoop g p A B (fuel + 1) x a b = none) ∧
    brute_force_dlp 3 7 0 3 = some (none, some 1) ∧
    (∀ (shared : DiffieHellmanState) (bodyA g p A : Nat),
      shared.g = some g → shared.p = some p → shared.A = some A →
      (brute_force_dlp g p A bodyA = none →
        ∃ st', mitm_handle_bob_reply shared bodyA = .timeout st' ∧
          st'.K = shared.K ∧ st'.B = some bodyA) ∧
      (∀ x1 x2, brute_force_dlp g p A bodyA = some (some x1, some x2) →
        ∃ st', mitm_handle_bob_reply shared bodyA = .keyFound st' ∧
          st'.K = some (powMod g (x1 * x2) p)) ∧
      (∀ t, brute_force_dlp g p A bodyA = some t → t.1 = none ∨ t.2 = none →
        mitm_handle_bob_reply shared bodyA = .exn)) := by
  refine ⟨?_, by decide, ?_⟩
  · intro g p A B fuel x a b hx hnot
    unfold bfdLoop
    dsimp only
    rw [if_neg hnot, if_pos hx]
  · intro shared bodyA g p A hg hp hA
    rcases shared with ⟨p?, g?, x?, A?, B?, K?⟩
    simp only at hg hp hA
    subst hg; subst hp; subst hA
    refine ⟨?_, ?_, ?_⟩
    · intro hbf
      refine ⟨⟨some p, some g, x?, some A, some bodyA, K?⟩, ?_, rfl, rfl⟩
      unfold mitm_handle_bob_reply DiffieHellmanState.set_B
      dsimp only
      rw [hbf]
    · intro x1 x2 hbf
      refine ⟨⟨some p, some g, x?, some A, some bodyA,
        some (powMod g (x1 * x2) p)⟩, ?_, rfl⟩
      unfold mitm_handle_bob_reply DiffieHellmanState.set_B
        DiffieHellmanState.generate_shared_key_from_secrets
      dsimp only
      rw [hbf]
    · intro t hbf hnone
      unfold mitm_handle_bob_reply DiffieHellmanState.set_B
      dsimp only
      rw [hbf]
      rcases t with ⟨t1, t2⟩
      rcases t1 with _ | x1 <;> rcases t2 with _ | x2 <;> simp_all

/-- Witness for C10: one loop step past the cutoff with nothing found
returns `None`. -/
theorem brute_force_dlp_failure_modes_witness :
    bfdLoop 1 5 0 0 1 3162278 none none = none :=
  brute_force_dlp_failure_modes.1 1 5 0 0 0 3162278 none none (by norm_num)
    (by decide)

/-! ### C6: the weak-DH brute-force attack recovers both exponents -/

/-- C6: for every single-digit prime `p` with generator
`g = smallest_primitive_root p` and observed public values `A = g^a mod p`,
`B = g^b mod p` (`1 ≤ a, b ≤ p-1`), `brute_force_dlp` returns exponents
`(x1, x2)` — well within the iteration cutoff, as `x1, x2 < p ≤ 9` — with
`g^x1 ≡ A` and `g^x2 ≡ B (mod p)`, and the MITM's
`generate_shared_key_from_secrets x1 x2` on its observed state then derives
`K = g^(a*b) mod p`, the honest parties' shared secret; and whenever a trial
exponent does exceed the cutoff with the search incomplete, the loop reports
failure (`None`) rather than retrying or raising. -/
theorem brute_force_recovers_weak_dh_secret :
    (∀ p, p < 10 → Nat.Prime p → ∀ g, g < p → smallest_primitive_root p = some g →
      ∀ a, 1 ≤ a → a < p → ∀ b, 1 ≤ b → b < p →
      ∃ x1 : Fin p, ∃ x2 : Fin p,
        brute_force_dlp g p (powMod g a p) (powMod g b p) =
          some (some x1.val, some x2.val) ∧
        powMod g x1.val p = powMod g a p ∧ powMod g x2.val p = powMod g b p ∧
        Option.map (fun s => s.K)
          ((((DiffieHellmanState.init.set_values p g).set_A
                (powMod g a p)).set_B
              (powMod g b p)).generate_shared_key_from_secrets x1.val x2.val) =
          some (some (powMod g (a * b) p))) ∧
    (∀ g p A B fuel x a b, 3162277 < x →
      ¬((if a = none ∧ powMod g x p = A then some x else a).isSome = true ∧
        (if b = none ∧ powMod g x p = B then some x else b).isSome = true) →
      bfdLoop g p A B (fuel + 1) x a b = none) := by
  constructor
  · intro p hp hprime g hg hspr a ha1 ha2 b hb1 hb2
    interval_cases p
    · exact absurd hprime (by norm_num)
    · exact absurd hprime (by norm_num)
    · rw [show smallest_primitive_root 2 = none from rfl] at hspr
      exact Option.noConfusion hspr
    · rw [show smallest_primitive_root 3 = some 2 from rfl] at hspr
      injection hspr with h
      subst h
      interval_cases a <;> interval_cases b <;> decide
    · exact absurd hprime (by norm_num)
    · rw [show smallest_primitive_root 5 = some 2 from rfl] at hspr
      injection hspr with h
      subst h
      interval_cases a <;> interval_cases b <;> decide
    · exact absurd hprime (by norm_num)
    · rw [show smallest_primitive_root 7 = some 3 from rfl] at hspr
      injection hspr with h
      subst h
      interval_cases a <;> interval_cases b <;> decide
    · exact absurd hprime (by norm_num)
    · exact absurd hprime (by norm_num)
  · intro g p A B fuel x a b hx hnot
    unfold bfdLoop
    dsimp only
    rw [if_neg hnot, if_pos hx]

/-- Witness for C6 at `p = 7`, `g = 3`, `a = 2`, `b = 3`. -/
theorem brute_force_recovers_weak_dh_secret_witness :
    ∃ x1 : Fin 7, ∃ x2 : Fin 7,
      brute_force_dlp 3 7 (powMod 3 2 7) (powMod 3 3 7) =
        some (some x1.val, some x2.val) ∧
      powMod 3 x1.val 7 = powMod 3 2 7 ∧ powMod 3 x2.val 7 = powMod 3 3 7 ∧
      Option.map (fun s => s.K)
        ((((DiffieHellmanState.init.set_values 7 3).set_A
              (powMod 3 2 7)).set_B
            (powMod 3 3 7)).generate_shared_key_from_secrets x1.val x2.val) =
        some (some (powMod 3 (2 * 3) 7)) :=
  brute_force_recovers_weak_dh_secret.1 7 (by norm_num) (by norm_num) 3
    (by norm_num) rfl 2 (by norm_num) (by norm_num) 3 (by norm_num) (by norm_num)

/-! ### C8: signature round-trips -/

/-- Modelled from the spec: the external `cryptography` library's
PKCS#1-v1.5 + SHA-256 signing with an RSA key `(n, d)` — deterministically
pad the digest to the modulus and modular-exponentiate (`constants.py` and
the library are not under `src/`; the spec describes the scheme as
"PKCS#1-v1.5-equivalent padding + SHA-256" over this exact byte string).
`pad` is the deterministic padding encoder. -/
def lib_sign (hash : Bytes → Bytes) (pad : Bytes → Nat → Nat) (msg : Bytes)
    (n d : Nat) : Bytes :=
  natToBEFixed ((bitLength n + 7) / 8) (powMod (pad (hash msg) n) d n)

/-- Modelled from the spec: the library's PKCS#1-v1.5 + SHA-256
verification — recompute the padded digest and compare with the
signature's `e`-th power mod `n`. -/
def lib_verify (hash : Bytes → Bytes) (pad : Bytes → Nat → Nat)
    (msg sig : Bytes) (n e : Nat) : Bool :=
  powMod (beBytesToNat sig) e n = pad (hash msg) n

theorem pow_congr_of_modEq_one (p : Nat) (hp : Nat.Prime p) (k m : Nat)
    (hk : 1 ≤ k) (hcong : k ≡ 1 [MOD p - 1]) : m ^ k ≡ m [MOD p] := by
  haveI : Fact p.Prime := ⟨hp⟩
  have hdvd : (p - 1) ∣ (k - 1) := (Nat.modEq_iff_dvd' hk).mp hcong.symm
  obtain ⟨t, ht⟩ := hdvd
  rw [← ZMod.natCast_eq_natCast_iff]
  push_cast
  by_cases hm : (m : ZMod p) = 0
  · rw [hm, zero_pow (by omega)]
  · rw [show k = (k - 1) + 1 by omega, pow_succ, ht, pow_mul,
      ZMod.pow_card_sub_one_eq_one hm, one_pow, one_mul]

theorem rsa_pow_roundtrip (p q e d m : Nat) (hp : Nat.Prime p) (hq : Nat.Prime q)
    (hpq : p ≠ q) (hed : 1 ≤ e * d) (hedp : e * d ≡ 1 [MOD p - 1])
    (hedq : e * d ≡ 1 [MOD q - 1]) (hm : m < p * q) :
    (m ^ d % (p * q)) ^ e % (p * q) = m := by
  have h1 : (m ^ d % (p * q)) ^ e % (p * q) = m ^ (d * e) % (p * q) := by
    rw [← Nat.pow_mod, ← pow_mul]
  have hde : 1 ≤ d * e := by rw [mul_comm]; exact hed
  have hmp : m ^ (d * e) ≡ m [MOD p] :=
    pow_congr_of_modEq_one p hp (d * e) m hde (by rwa [mul_comm] at hedp)
  have hmq : m ^ (d * e) ≡ m [MOD q] :=
    pow_congr_of_modEq_one q hq (d * e) m hde (by rwa [mul_comm] at hedq)
  have hcop : Nat.Coprime p q := (Nat.coprime_primes hp hq).mpr hpq
  have hmod : m ^ (d * e) ≡ m [MOD p * q] :=
    (Nat.modEq_and_modEq_iff_modEq_mul hcop).mp ⟨hmp, hmq⟩
  rw [h1]
  calc m ^ (d * e) % (p * q) = m % (p * q) := hmod
    _ = m := Nat.mod_eq_of_lt hm

theorem lt_pow_byteLength (n : Nat) : n < 256 ^ ((bitLength n + 7) / 8) := by
  rcases Nat.eq_zero_or_pos n with h0 | hpos
  · subst h0; simp [bitLength]
  · have h1 : n < 2 ^ (Nat.log2 n + 1) := Nat.lt_log2_self
    have h2 : bitLength n = Nat.log2 n + 1 := by
      have : n ≠ 0 := by omega
      simp [bitLength, this]
    calc n < 2 ^ (Nat.log2 n + 1) := h1
      _ ≤ 2 ^ (8 * ((bitLength n + 7) / 8)) := by
          apply Nat.pow_le_pow_right (by norm_num)
          rw [← h2]
          omega
      _ = 256 ^ ((bitLength n + 7) / 8) := by
          rw [show (256 : Nat) = 2 ^ 8 from rfl, ← pow_mul]

/-- C8: signature round-trips hold for RSA key material as generated by the
engine — an RSA modulus `n = p * q` of two distinct primes with
`e * d ≡ 1 (mod p-1, q-1)`.  The demo (textbook) pair
`simple_verify(m, simple_sign(m, d, n), e, n)` accepts whenever the SHA-256
digest value is below `n` (always: the digest has 256 bits, demo `n` 2048),
and the spec-modelled library pair `lib_verify/lib_sign` accepts whenever
the padded digest is below `n` (guaranteed by PKCS#1 v1.5). -/
theorem signature_roundtrip (hash : Bytes → Bytes) (pad : Bytes → Nat → Nat)
    (msg : Bytes) (p q e d : Nat) (hp : Nat.Prime p) (hq : Nat.Prime q)
    (hpq : p ≠ q) (hed : 1 ≤ e * d) (hedp : e * d ≡ 1 [MOD p - 1])
    (hedq : e * d ≡ 1 [MOD q - 1])
    (hdig : beBytesToNat (hash msg) < p * q)
    (hpad : pad (hash msg) (p * q) < p * q) :
    simple_verify hash msg (simple_sign hash msg d (p * q)) e (p * q) = true ∧
      lib_verify hash pad msg (lib_sign hash pad msg (p * q) d) (p * q) e = true := by
  have hn0 : 0 < p * q :=
    Nat.mul_pos hp.pos hq.pos
  constructor
  · unfold simple_verify simple_sign
    rw [beBytesToNat_natToBEFixed]
    · simp only [powMod_eq, decide_eq_true_eq]
      exact rsa_pow_roundtrip p q e d _ hp hq hpq hed hedp hedq hdig
    · calc powMod (beBytesToNat (hash msg)) d (p * q) < p * q := by
            rw [powMod_eq]; exact Nat.mod_lt _ hn0
        _ ≤ 256 ^ ((bitLength (p * q) + 7) / 8) := le_of_lt (lt_pow_byteLength _)
  · unfold lib_verify lib_sign
    rw [beBytesToNat_natToBEFixed]
    · simp only [powMod_eq, decide_eq_true_eq]
      exact rsa_pow_roundtrip p q e d _ hp hq hpq hed hedp hedq hpad
    · calc powMod (pad (hash msg) (p * q)) d (p * q) < p * q := by
            rw [powMod_eq]; exact Nat.mod_lt _ hn0
        _ ≤ 256 ^ ((bitLength (p * q) + 7) / 8) := le_of_lt (lt_pow_byteLength _)

/-- Witness for C8 at `n = 3 * 5`, `e = d = 3`, digest value 2. -/
theorem signature_roundtrip_witness :
    simple_verify (fun _ => [2]) [1]
        (simple_sign (fun _ => [2]) [1] 3 (3 * 5)) 3 (3 * 5) = true ∧
      lib_verify (fun _ => [2]) (fun b _ => beBytesToNat b) [1]
        (lib_sign (fun _ => [2]) (fun b _ => beBytesToNat b) [1] (3 * 5) 3)
        (3 * 5) 3 = true :=
  signature_roundtrip (fun _ => [2]) (fun b _ => beBytesToNat b) [1] 3 5 3 3
    (by norm_num) (by norm_num) (by norm_num) (by norm_num) (by decide)
    (by decide) (by decide) (by decide)

/-! ### C7: parameters produced by `generate_values` -/

theorem isqrtAux_spec (fuel n lo hi : Nat) (hlo : lo * lo ≤ n) (hhi : n < hi * hi)
    (hfuel : hi ≤ lo + fuel + 1) :
    isqrtAux fuel n lo hi * isqrtAux fuel n lo hi ≤ n ∧
      n < (isqrtAux fuel n lo hi + 1) * (isqrtAux fuel n lo hi + 1) := by
  induction fuel generalizing lo hi with
  | zero =>
    have hhi1 : hi ≤ lo + 1 := hfuel
    refine ⟨hlo, ?_⟩
    calc n < hi * hi := hhi
      _ ≤ (lo + 1) * (lo + 1) := Nat.mul_le_mul hhi1 hhi1
  | succ fuel ih =>
    unfold isqrtAux
    split
    · rename_i hle
      refine ⟨hlo, ?_⟩
      calc n < hi * hi := hhi
        _ ≤ (lo + 1) * (lo + 1) := Nat.mul_le_mul hle hle
    · rename_i hgt
      have hlt : lo + 1 < hi := by omega
      have hmlo : lo < (lo + hi) / 2 := by omega
      have hmhi : (lo + hi) / 2 < hi := by omega
      dsimp only
      split
      · exact ih ((lo + hi) / 2) hi (by assumption) hhi (by omega)
      · rename_i hm
        exact ih lo ((lo + hi) / 2) hlo (by omega) (by omega)

theorem isqrt_spec (n : Nat) :
    isqrt n * isqrt n ≤ n ∧ n < (isqrt n + 1) * (isqrt n + 1) := by
  unfold isqrt
  exact isqrtAux_spec (n + 2) n 0 (n + 1) (by simp) (by nlinarith) (by omega)

theorem le_isqrt_of_sq_le (a n : Nat) (h : a * a ≤ n) : a ≤ isqrt n := by
  by_contra hlt
  push_neg at hlt
  have := (isqrt_spec n).2
  have : (isqrt n + 1) * (isqrt n + 1) ≤ a * a := Nat.mul_le_mul hlt hlt
  omega

theorem isqrt_le_self (n : Nat) : isqrt n ≤ n := by
  rcases Nat.eq_zero_or_pos (isqrt n) with h0 | hpos
  · omega
  · have h := (isqrt_spec n).1
    calc isqrt n = isqrt n * 1 := (Nat.mul_one _).symm
      _ ≤ isqrt n * isqrt n := Nat.mul_le_mul_left _ hpos
      _ ≤ n := h

theorem divideOut_dvd (fuel n f : Nat) : divideOut fuel n f ∣ n := by
  induction fuel generalizing n with
  | zero => exact dvd_refl n
  | succ fuel ih =>
    unfold divideOut
    split
    · rename_i hcond
      exact dvd_trans (ih (n / f)) (Nat.div_dvd_of_dvd (Nat.dvd_of_mod_eq_zero hcond.1))
    · exact dvd_refl n

theorem divideOut_pos (fuel n f : Nat) (hn : 1 ≤ n) : 1 ≤ divideOut fuel n f := by
  induction fuel generalizing n with
  | zero => exact hn
  | succ fuel ih =>
    unfold divideOut
    split
    · rename_i hcond
      obtain ⟨hmod, hf, hn0⟩ := hcond
      have hdvd : f ∣ n := Nat.dvd_of_mod_eq_zero hmod
      have : f ≤ n := Nat.le_of_dvd (by omega) hdvd
      exact ih (n / f) (by
        have := Nat.div_le_div_right (c := f) this
        rw [Nat.div_self (by omega)] at this
        exact this)
    · exact hn

theorem divideOut_not_dvd (fuel n f : Nat) (hf : 2 ≤ f) (hn : 1 ≤ n)
    (hfuel : n ≤ fuel) : ¬ f ∣ divideOut fuel n f := by
  induction fuel generalizing n with
  | zero => omega
  | succ fuel ih =>
    unfold divideOut
    split
    · rename_i hcond
      have hdvd : f ∣ n := Nat.dvd_of_mod_eq_zero hcond.1
      have hle : f ≤ n := Nat.le_of_dvd (by omega) hdvd
      have hq1 : 1 ≤ n / f := (Nat.one_le_div_iff (by omega)).mpr hle
      have hqf : n / f ≤ fuel := by
        have h2 : n / f ≤ n / 2 := Nat.div_le_div_left hf (by omega)
        have h3 : n / 2 < n := Nat.div_lt_self (by omega) (by omega)
        omega
      exact ih (n / f) hq1 hqf
    · rename_i hcond
      intro hdvd
      exact hcond ⟨Nat.dvd_iff_mod_eq_zero.mp hdvd, hf, by omega⟩

theorem divideOut_prime_dvd (fuel n f q : Nat) (hq : Nat.Prime q) (hqn : q ∣ n)
    (hqf : q ≠ f) (hinv : ∀ r, Nat.Prime r → r ∣ n → f ≤ r) :
    q ∣ divideOut fuel n f := by
  induction fuel generalizing n with
  | zero => exact hqn
  | succ fuel ih =>
    unfold divideOut
    split
    · rename_i hcond
      obtain ⟨hmod, hf2, hn0⟩ := hcond
      have hfdvd : f ∣ n := Nat.dvd_of_mod_eq_zero hmod
      have hsplit : q ∣ f * (n / f) := by
        rw [Nat.mul_div_cancel' hfdvd]; exact hqn
      rcases (Nat.Prime.dvd_mul hq).mp hsplit with hqf' | hqnf
      · exact absurd (Nat.le_antisymm (Nat.le_of_dvd (by omega) hqf')
          (hinv q hq hqn)) hqf
      · exact ih (n / f) hqnf fun r hr hrdvd =>
          hinv r hr (dvd_trans hrdvd (Nat.div_dvd_of_dvd hfdvd))
    · exact hqn

theorem isqrt_le_isqrt (m n : Nat) (h : m ≤ n) : isqrt m ≤ isqrt n :=
  le_isqrt_of_sq_le _ _ (le_trans (isqrt_spec m).1 h)

/-- Completeness of the trial-division loop: with the loop invariants of
`_prime_factors` (odd `n` with no prime factor below the odd candidate `f`,
`limit = isqrt n + 1`, and enough fuel), every prime factor of `n` appears
in the returned list. -/
theorem trialDivLoop_complete (fuel : Nat) :
    ∀ (f n limit : Nat) (L : List Nat),
      3 ≤ f → f % 2 = 1 → 1 ≤ n → n % 2 = 1 →
      limit = isqrt n + 1 →
      (∀ r, Nat.Prime r → r ∣ n → f ≤ r) →
      limit + 2 ≤ f + 2 * fuel →
      trialDivLoop fuel f n limit = some L →
      ∀ q, Nat.Prime q → q ∣ n → q ∈ L := by
  induction fuel with
  | zero =>
    intro f n limit L hf hfo hn hno hlim hinv hfuel h
    simp [trialDivLoop] at h
  | succ fuel ih =>
    intro f n limit L hf hfo hn hno hlim hinv hfuel h q hq hqn
    unfold trialDivLoop at h
    split at h
    · rename_i hcond
      split at h
      · rename_i hmod
        dsimp only at h
        rcases hL' : trialDivLoop fuel (f + 2) (divideOut n n f)
            (isqrt (divideOut n n f) + 1) with _ | L' <;> rw [hL'] at h
        · exact absurd h (by simp)
        · simp only [Option.map_some', Option.some.injEq] at h
          subst h
          by_cases hqf : q = f
          · subst hqf; exact List.mem_cons_self _ _
          · have hfdvd : f ∣ n := Nat.dvd_of_mod_eq_zero hmod
            have hq' : q ∣ divideOut n n f :=
              divideOut_prime_dvd n n f q hq hqn hqf hinv
            have hpos' : 1 ≤ divideOut n n f := divideOut_pos n n f hn
            have hdvd' : divideOut n n f ∣ n := divideOut_dvd n n f
            have hodd' : divideOut n n f % 2 = 1 := by
              rcases Nat.mod_two_eq_zero_or_one (divideOut n n f) with h2 | h2
              · exact absurd (dvd_trans (Nat.dvd_of_mod_eq_zero h2) hdvd')
                  (by omega)
              · exact h2
            have hnotf : ¬ f ∣ divideOut n n f :=
              divideOut_not_dvd n n f (by omega) hn (le_refl n)
            have hinv' : ∀ r, Nat.Prime r → r ∣ divideOut n n f → f + 2 ≤ r := by
              intro r hr hrd
              have hrn : r ∣ n := dvd_trans hrd hdvd'
              have h1 : f ≤ r := hinv r hr hrn
              have h2 : r ≠ f := fun he => hnotf (he ▸ hrd)
              have h3 : r ≠ f + 1 := by
                intro he
                have hr2 : r % 2 = 0 := by omega
                have : 2 ∣ r := Nat.dvd_of_mod_eq_zero hr2
                have : r = 2 := ((Nat.Prime.eq_one_or_self_of_dvd hr 2 this).resolve_left
                  (by omega)).symm
                omega
              omega
            have hle' : divideOut n n f ≤ n := Nat.le_of_dvd (by omega) hdvd'
            have hfuel' : isqrt (divideOut n n f) + 1 + 2 ≤ (f + 2) + 2 * fuel := by
              have := isqrt_le_isqrt _ _ hle'
              omega
            exact List.mem_cons_of_mem _
              (ih (f + 2) (divideOut n n f) _ L' (by omega) (by omega) hpos' hodd'
                rfl hinv' hfuel' hL' q hq hq')
      · rename_i hmod
        have hinv' : ∀ r, Nat.Prime r → r ∣ n → f + 2 ≤ r := by
          intro r hr hrd
          have h1 : f ≤ r := hinv r hr hrd
          have h2 : r ≠ f := by
            intro he
            exact hmod (by rw [← he] at *; exact Nat.dvd_iff_mod_eq_zero.mp hrd)
          have h3 : r ≠ f + 1 := by
            intro he
            have hr2 : r % 2 = 0 := by omega
            have : 2 ∣ r := Nat.dvd_of_mod_eq_zero hr2
            have : r = 2 := ((Nat.Prime.eq_one_or_self_of_dvd hr 2 this).resolve_left
              (by omega)).symm
            have : 2 ∣ n := by rw [← this]; exact hrd
            omega
          omega
        exact ih (f + 2) n limit L (by omega) (by omega) hn hno hlim hinv'
          (by omega) h q hq hqn
    · rename_i hcond
      have hL : L = if 1 < n then [n] else [] := (Option.some.inj h).symm
      by_cases hn1 : 1 < n
      · have hfgt : limit < f := by
          rcases Nat.lt_or_ge limit f with hlt | hge
          · exact hlt
          · exact absurd ⟨hge, hn1⟩ hcond
        by_cases hnp : Nat.Prime n
        · have := Nat.Prime.eq_one_or_self_of_dvd hnp q hqn
          have hq1 : q ≠ 1 := Nat.Prime.ne_one hq
          have hqn' : q = n := this.resolve_left hq1
          subst hqn'
          rw [hL, if_pos hn1]
          exact List.mem_singleton.mpr rfl
        · exfalso
          have hmfp : (Nat.minFac n).Prime := Nat.minFac_prime (by omega)
          have hmfd : Nat.minFac n ∣ n := Nat.minFac_dvd n
          have hsq : Nat.minFac n * Nat.minFac n ≤ n := by
            have := Nat.minFac_sq_le_self (by omega) hnp
            nlinarith [this]
          have h1 : Nat.minFac n ≤ isqrt n := le_isqrt_of_sq_le _ _ hsq
          have h2 : f ≤ Nat.minFac n := hinv _ hmfp hmfd
          omega
      · have hn1' : n = 1 := by omega
        subst hn1'
        have : q = 1 := Nat.dvd_one.mp hqn
        exact absurd this (Nat.Prime.ne_one hq)

/-- Completeness of `_prime_factors`: every prime factor of `n ≥ 1` is in
the computed set. -/
theorem prime_factors_complete (n : Nat) (hn : 1 ≤ n) (L : List Nat)
    (h : prime_factors n = some L) :
    ∀ q, Nat.Prime q → q ∣ n → q ∈ L := by
  intro q hq hqn
  unfold prime_factors at h
  dsimp only at h
  rcases hL' : trialDivLoop (divideOut n n 2 + 2) 3 (divideOut n n 2)
      (isqrt (divideOut n n 2) + 1) with _ | L' <;> rw [hL'] at h
  · exact absurd h (by simp)
  · simp only [Option.map_some', Option.some.injEq] at h
    subst h
    have hpos' : 1 ≤ divideOut n n 2 := divideOut_pos n n 2 hn
    have hdvd' : divideOut n n 2 ∣ n := divideOut_dvd n n 2
    have hodd' : divideOut n n 2 % 2 = 1 := by
      rcases Nat.mod_two_eq_zero_or_one (divideOut n n 2) with h2 | h2
      · exact absurd (Nat.dvd_of_mod_eq_zero h2)
          (divideOut_not_dvd n n 2 (by omega) hn (le_refl n))
      · exact h2
    by_cases hq2 : q = 2
    · subst hq2
      have hmod : n % 2 = 0 := Nat.dvd_iff_mod_eq_zero.mp hqn
      rw [if_pos ⟨hmod, by omega⟩]
      exact List.mem_append_left _ (List.mem_singleton.mpr rfl)
    · have hq' : q ∣ divideOut n n 2 :=
        divideOut_prime_dvd n n 2 q hq hqn hq2 fun r hr _ => Nat.Prime.two_le hr
      have hinv' : ∀ r, Nat.Prime r → r ∣ divideOut n n 2 → 3 ≤ r := by
        intro r hr hrd
        have h2 : r ≠ 2 := by
          intro he
          have : divideOut n n 2 % 2 = 0 := Nat.dvd_iff_mod_eq_zero.mp (he ▸ hrd)
          omega
        have := Nat.Prime.two_le hr
        omega
      have hfuel' : isqrt (divideOut n n 2) + 1 + 2 ≤
          3 + 2 * (divideOut n n 2 + 2) := by
        have := isqrt_le_self (divideOut n n 2)
        omega
      exact List.mem_append_right _
        (trialDivLoop_complete (divideOut n n 2 + 2) 3 (divideOut n n 2) _ L'
          (by omega) (by omega) hpos' hodd' rfl hinv' hfuel' hL' q hq hq')

theorem sprLoop_sound (p phi : Nat) (factors : List Nat) (fuel g0 g : Nat)
    (h : sprLoop p phi factors fuel g0 = some g) :
    ∀ q ∈ factors, powMod g (phi / q) p ≠ 1 := by
  induction fuel generalizing g0 with
  | zero => simp [sprLoop] at h
  | succ fuel ih =>
    unfold sprLoop at h
    split at h
    · rename_i hall
      have hg : g0 = g := Option.some.inj h
      subst hg
      intro q hq
      exact of_decide_eq_true (List.all_eq_true.mp hall q hq)
    · exact ih (g0 + 1) h

/-- The candidate returned by `smallest_primitive_root p` passes the check
`g^((p-1)/q) % p ≠ 1` for every prime factor `q` of `p - 1` — the claim's
primitive-root criterion. -/
theorem smallest_primitive_root_criterion (p g : Nat)
    (h : smallest_primitive_root p = some g) :
    ∀ q, Nat.Prime q → q ∣ (p - 1) → powMod g ((p - 1) / q) p ≠ 1 := by
  intro q hq hdvd
  unfold smallest_primitive_root at h
  split at h
  · exact absurd h (by simp)
  · rename_i hp3
    dsimp only at h
    rcases hpf : prime_factors (p - 1) with _ | factors <;> rw [hpf] at h
    · exact absurd h (by simp)
    · have hmem : q ∈ factors :=
        prime_factors_complete (p - 1) (by omega) factors hpf q hq hdvd
      exact sprLoop_sound p (p - 1) factors (p - 2) 2 g h q hmem

/-- Well-formedness of the base draws of one `_is_probable_prime` call:
`k = 15` draws from `random.randrange(2, n - 2)`. -/
def mrBasesWF (n : Nat) (bases : List Nat) : Prop :=
  bases.length = 15 ∧ ∀ a ∈ bases, 2 ≤ a ∧ a + 3 ≤ n

/-- Well-formedness of the candidate/base draws consumed by
`generate_prime_with_digits(1)`: candidates from `random.randrange(1, 9)`,
and base draws in range for the nudged candidate (bases are only drawn once
the candidate reaches the Miller–Rabin loop, i.e. beyond the small cases). -/
def weakDrawsWF (draws : List (Nat × List Nat)) : Prop :=
  ∀ d ∈ draws, 1 ≤ d.1 ∧ d.1 ≤ 8 ∧
    (3 < (if d.1 % 2 = 0 ∨ d.1 % 5 = 0 then d.1 + 1 else d.1) →
      mrBasesWF (if d.1 % 2 = 0 ∨ d.1 % 5 = 0 then d.1 + 1 else d.1) d.2)

theorem ipp_six_false (bases : List Nat) (hwf : mrBasesWF 6 bases) :
    is_probable_prime 6 bases = false := by
  obtain ⟨hlen, hall⟩ := hwf
  rcases bases with _ | ⟨a, rest⟩
  · simp at hlen
  · obtain ⟨ha2, ha3⟩ := hall a (List.mem_cons_self _ _)
    show ((a :: rest).all fun a => mrPassesBase 6 5 0 a) = false
    have hfa : mrPassesBase 6 5 0 a = false := by
      have : a ≤ 3 := by omega
      interval_cases a <;> rfl
    simp [List.all_cons, hfa]

theorem ipp_nine_false (bases : List Nat) (hwf : mrBasesWF 9 bases) :
    is_probable_prime 9 bases = false := by
  obtain ⟨hlen, hall⟩ := hwf
  rcases bases with _ | ⟨a, rest⟩
  · simp at hlen
  · obtain ⟨ha2, ha3⟩ := hall a (List.mem_cons_self _ _)
    show ((a :: rest).all fun a => mrPassesBase 9 1 3 a) = false
    have hfa : mrPassesBase 9 1 3 a = false := by
      have : a ≤ 6 := by omega
      interval_cases a <;> rfl
    simp [List.all_cons, hfa]

/-- Any probable prime produced by the 1-digit candidate loop is 3, 5 or 7
(hence truly prime): the reachable nudged candidates are
`{1, 3, 5, 6, 7, 9}`, and 1, 6, 9 never pass Miller–Rabin with in-range
bases. -/
theorem genPrimeLoop_weak (draws : List (Nat × List Nat))
    (hwf : weakDrawsWF draws) (c : Nat) (h : genPrimeLoop draws = some c) :
    c = 3 ∨ c = 5 ∨ c = 7 := by
  induction draws with
  | nil => simp [genPrimeLoop] at h
  | cons hd rest ih =>
    obtain ⟨cand, bases⟩ := hd
    obtain ⟨h1, h8, hb⟩ := hwf (cand, bases) (List.mem_cons_self _ _)
    have hwfr : weakDrawsWF rest := fun d hdm => hwf d (List.mem_cons_of_mem _ hdm)
    unfold genPrimeLoop at h
    dsimp only at h
    dsimp only at h1 h8 hb
    interval_cases cand
    · norm_num at h hb
      split at h
      · rename_i hipp
        rw [show is_probable_prime 1 bases = false from rfl] at hipp
        exact absurd hipp (by simp)
      · exact ih hwfr h
    · norm_num at h hb
      split at h
      · exact Or.inl (Option.some.inj h).symm
      · exact ih hwfr h
    · norm_num at h hb
      split at h
      · exact Or.inl (Option.some.inj h).symm
      · exact ih hwfr h
    · norm_num at h hb
      split at h
      · exact Or.inr (Or.inl (Option.some.inj h).symm)
      · exact ih hwfr h
    · norm_num at h hb
      split at h
      · rename_i hipp
        rw [ipp_six_false bases hb] at hipp
        exact absurd hipp (by simp)
      · exact ih hwfr h
    · norm_num at h hb
      split at h
      · exact Or.inr (Or.inr (Option.some.inj h).symm)
      · exact ih hwfr h
    · norm_num at h hb
      split at h
      · exact Or.inr (Or.inr (Option.some.inj h).symm)
      · exact ih hwfr h
    · norm_num at h hb
      split at h
      · rename_i hipp
        rw [ipp_nine_false bases hb] at hipp
        exact absurd hipp (by simp)
      · exact ih hwfr h

/-- C7 (amended): every parameter pair `(p, g)` produced by
`generate_values` satisfies: `g` passes the primitive-root criterion
`g^((p-1)/q) % p ≠ 1` for every prime factor `q` of `p - 1`; and in the
weak (1-digit) class, `p` is truly prime.  In the strong (15-digit) class
`p` is only a Miller–Rabin probable prime for the sampled bases — the
counterexample exhibits a composite 15-digit `p` that the pipeline
produces. -/
theorem generate_values_invariant :
    (∀ (st st' : DiffieHellmanState) (draws : List (Nat × List Nat)),
      weakDrawsWF draws → st.generate_values true draws = some st' →
      ∃ p g, st'.p = some p ∧ st'.g = some g ∧ Nat.Prime p ∧
        ∀ q, Nat.Prime q → q ∣ (p - 1) → powMod g ((p - 1) / q) p ≠ 1) ∧
    (∀ (st st' : DiffieHellmanState) (isWeak : Bool)
        (draws : List (Nat × List Nat)) (p g : Nat),
      st.generate_values isWeak draws = some st' →
      st'.p = some p → st'.g = some g →
      ∀ q, Nat.Prime q → q ∣ (p - 1) → powMod g ((p - 1) / q) p ≠ 1) := by
  constructor
  · intro st st' draws hwf hgen
    unfold DiffieHellmanState.generate_values at hgen
    rcases hp0 : generate_prime_with_digits (if true = true then 1 else 15) draws
      with _ | p0 <;> rw [hp0] at hgen
    · exact absurd hgen (by simp)
    · dsimp only at hgen
      rcases hg0 : smallest_primitive_root p0 with _ | g0 <;> rw [hg0] at hgen
      · exact absurd hgen (by simp)
      · simp only [Option.some.injEq] at hgen
        subst hgen
        refine ⟨p0, g0, rfl, rfl, ?_, smallest_primitive_root_criterion p0 g0 hg0⟩
        have hloop : genPrimeLoop draws = some p0 := by
          rw [if_pos rfl] at hp0
          unfold generate_prime_with_digits at hp0
          simpa using hp0
        rcases genPrimeLoop_weak draws hwf p0 hloop with h | h | h <;>
          · subst h; norm_num
  · intro st st' isWeak draws p g hgen hp' hg'
    unfold DiffieHellmanState.generate_values at hgen
    rcases hp0 : generate_prime_with_digits (if isWeak then 1 else 15) draws
      with _ | p0 <;> rw [hp0] at hgen
    · exact absurd hgen (by simp)
    · dsimp only at hgen
      rcases hg0 : smallest_primitive_root p0 with _ | g0 <;> rw [hg0] at hgen
      · exact absurd hgen (by simp)
      · simp only [Option.some.injEq] at hgen
        subst hgen
        simp only [Option.some.injEq] at hp' hg'
        subst hp'; subst hg'
        exact smallest_primitive_root_criterion p0 g0 hg0

/-- Witness for C7: the draw `(7, fifteen bases 2)` is well-formed and makes
the weak generator produce `(p, g) = (7, 3)`. -/
theorem generate_values_invariant_witness :
    ∃ p g, (⟨some 7, some 3, none, none, none, none⟩ : DiffieHellmanState).p =
        some p ∧
      (⟨some 7, some 3, none, none, none, none⟩ : DiffieHellmanState).g =
        some g ∧
      Nat.Prime p ∧
      ∀ q, Nat.Prime q → q ∣ (p - 1) → powMod g ((p - 1) / q) p ≠ 1 :=
  generate_values_invariant.1 DiffieHellmanState.init
    ⟨some 7, some 3, none, none, none, none⟩ [(7, List.replicate 15 2)]
    (by
      intro d hd
      simp only [List.mem_singleton] at hd
      subst hd
      refine ⟨by norm_num, by norm_num, ?_⟩
      intro h3
      exact ⟨by decide, by decide⟩)
    rfl

set_option maxRecDepth 100000 in
/-- C7 counterexample: the strong-class pipeline can produce a composite
`p`.  The candidate draw `470431847135251 = 15336751 * 30673501` is odd, not
divisible by 5 (so the nudge leaves it unchanged), lies in
`randrange(10^14, 10^15 - 1)`'s range, and `368082028` is an in-range base
(`randrange(2, p - 2)`) that is a strong liar for it; with all fifteen base
draws equal to that liar, `generate_values(is_weak=False)` returns this
composite `p` (with `g = 2`), violating the claimed invariant that `p` is
prime. -/
theorem generate_values_strong_composite :
    DiffieHellmanState.init.generate_values false
        [(470431847135251, List.replicate 15 368082028)] =
      some ⟨some 470431847135251, some 2, none, none, none, none⟩ ∧
      10 ^ 14 ≤ 470431847135251 ∧ 470431847135251 ≤ 10 ^ 15 - 2 ∧
      470431847135251 % 2 = 1 ∧ 470431847135251 % 5 ≠ 0 ∧
      2 ≤ 368082028 ∧ 368082028 ≤ 470431847135251 - 3 ∧
      470431847135251 = 15336751 * 30673501 ∧
      ¬ Nat.Prime 470431847135251 := by
  refine ⟨rfl, by norm_num, by norm_num, by norm_num, by norm_num, by norm_num,
    by norm_num, by norm_num, ?_⟩
  intro h
  have := h.eq_one_or_self_of_dvd 15336751 ⟨30673501, by norm_num⟩
  norm_num at this
